import Mathlib

/-!
Verification development for the vdo-v2-backend signaling/SFU server.

The definitions below are a shallow embedding of the TypeScript sources:
  * `JMap` models a JavaScript `Map` as an association list in insertion
    order (`set` replaces the first entry with the key, otherwise appends;
    `del` removes entries with the key; `values` iterates insertion order).
  * The shared data model follows `src/shared/types.ts` and the mongoose
    schema in the video-call model file.
  * `ServerState`/`step` embed the `RoomService` of
    `src/signaling-server/services/room.service.ts` (first, authenticated
    variant) together with the socket handlers of
    `src/signaling-server/index.ts`.
  * `WsState` embeds the `SignalingService` of
    `src/signaling-server/working-signaling-server.ts`.
  * `SfuState` embeds the `SFUService` of
    `src/sfu-server/services/sfu.service.ts`.
Times are naturals (milliseconds); `Date.now()` is the `now` field of the
state, advanced by an explicit clock operation.
-/

namespace VdoV2

/-! ## JavaScript map model -/

/-- A JavaScript `Map` with string keys: entries in insertion order. -/
abbrev JMap (α : Type) : Type := List (String × α)

namespace JMap

def empty {α : Type} : JMap α := []

/-- `Map.get`: first entry with the key (unique in a real JS map). -/
def get {α : Type} : JMap α → String → Option α
  | [], _ => none
  | e :: es, k => if e.1 = k then some e.2 else get es k

/-- `Map.set`: replace the entry holding the key in place, else append. -/
def set {α : Type} : JMap α → String → α → JMap α
  | [], k, v => [(k, v)]
  | e :: es, k, v => if e.1 = k then (k, v) :: es else e :: set es k v

/-- `Map.delete`: remove the entry holding the key. -/
def del {α : Type} : JMap α → String → JMap α
  | [], _ => []
  | e :: es, k => if e.1 = k then del es k else e :: del es k

/-- `Map.values()` in insertion order. -/
def values {α : Type} (m : JMap α) : List α := m.map (·.2)

/-- Keys in insertion order. -/
def keysOf {α : Type} (m : JMap α) : List String := m.map (·.1)

/-- `Array.from(m.values()).find(q)` together with its key. -/
def findFirstEntry {α : Type} : JMap α → (α → Bool) → Option (String × α)
  | [], _ => none
  | e :: es, q => if q e.2 then some e else findFirstEntry es q

/-- Mutating the first value satisfying `q` (JS code mutates the object
found by `Array.find`, which lives inside the map). -/
def modFirst {α : Type} : JMap α → (α → Bool) → (α → α) → JMap α
  | [], _, _ => []
  | e :: es, q, f => if q e.2 then (e.1, f e.2) :: es else e :: modFirst es q f

def size {α : Type} (m : JMap α) : Nat := m.length

end JMap

/-! ## Shared data model (`src/shared/types.ts`, video-call schema) -/

inductive CallStatus where
  | scheduled | waiting | live | ended | cancelled
deriving DecidableEq, Repr

inductive CallType where
  | publicCall | privateCall | invitedOnly
deriving DecidableEq, Repr

inductive ParticipantRole where
  | host | moderator | participant
deriving DecidableEq, Repr

structure MediaState where
  videoEnabled : Bool
  audioEnabled : Bool
  screenShareEnabled : Bool
deriving DecidableEq, Repr

/-- The call settings read by the session layer (the remaining boolean
settings fields of the schema are never read by the signaling code). -/
structure CallSettings where
  videoEnabled : Bool
  audioEnabled : Bool
  screenShareEnabled : Bool
  chatEnabled : Bool
deriving DecidableEq, Repr

def defaultCallSettings : CallSettings :=
  { videoEnabled := true, audioEnabled := true,
    screenShareEnabled := true, chatEnabled := true }

structure User where
  id : String
  name : String
  email : String
deriving DecidableEq, Repr

/-- One entry of `call.participants` in the video-call document. -/
structure DbParticipant where
  userId : String
  joinedAt : Nat
  leftAt : Option Nat
  role : ParticipantRole
  isConnected : Bool
  connectionId : Option String
deriving DecidableEq, Repr

/-- A persisted video-call document (the fields the session layer reads). -/
structure CallRecord where
  id : String
  roomId : String
  hostId : String
  status : CallStatus
  typ : CallType
  settings : CallSettings
  passcode : Option String
  maxParticipants : Nat
  participants : List DbParticipant
  startedAt : Option Nat
  endedAt : Option Nat
  duration : Nat
deriving DecidableEq, Repr

/-- `canUserJoin` result object. -/
structure CanJoin where
  canJoin : Bool
  reason : Option String
deriving DecidableEq, Repr

/-- `videoCallSchema.methods.canUserJoin` from the video-call model. -/
def canUserJoin (c : CallRecord) (userId : Option String) : CanJoin :=
  if c.status = .ended ∨ c.status = .cancelled then
    { canJoin := false, reason := some "Call has ended" }
  else
    let activeParticipants := (c.participants.filter (fun p => p.leftAt = none)).length
    if c.maxParticipants ≤ activeParticipants then
      { canJoin := false, reason := some "Call is full" }
    else if c.typ = .privateCall ∧ userId.isSome ∧
        ¬ c.participants.any (fun p => some p.userId = userId) then
      { canJoin := false, reason := some "You are not invited to this call" }
    else if c.typ = .invitedOnly ∧ userId.isSome ∧
        ¬ c.participants.any (fun p => some p.userId = userId) then
      { canJoin := false, reason := some "You are not invited to this call" }
    else
      { canJoin := true, reason := none }

/-- `videoCallSchema.methods.addParticipant`; `none` models the
`Call is full` throw (the caller catches and logs it). -/
def addParticipantDb (c : CallRecord) (userId : String) (role : ParticipantRole)
    (now : Nat) : Option CallRecord :=
  match c.participants.find? (fun p => p.userId = userId) with
  | some _ =>
      some { c with participants :=
        c.participants.map (fun p =>
          if p.userId = userId then { p with role := role, leftAt := none } else p) }
  | none =>
      if c.maxParticipants ≤ c.participants.length then none
      else some { c with participants := c.participants ++
        [{ userId := userId, joinedAt := now, leftAt := none, role := role,
           isConnected := false, connectionId := none }] }

/-- `videoCallSchema.methods.updateParticipantStatus`. -/
def updateParticipantStatusDb (c : CallRecord) (userId : String)
    (isConnected : Bool) (connectionId : Option String) (now : Nat) : CallRecord :=
  { c with participants := c.participants.map (fun p =>
      if p.userId = userId then
        { p with isConnected := isConnected, connectionId := connectionId,
                 leftAt := if isConnected then none else some now }
      else p) }

/-- `videoCallSchema.methods.startCall`. -/
def startCallDb (c : CallRecord) (now : Nat) : CallRecord :=
  if c.status = .scheduled ∨ c.status = .waiting then
    { c with status := .live, startedAt := some now }
  else c

/-- `videoCallSchema.methods.endCall`. -/
def endCallDb (c : CallRecord) (now : Nat) : CallRecord :=
  if c.status = .live ∨ c.status = .waiting then
    { c with
      status := .ended, endedAt := some now,
      duration := (match c.startedAt with
        | some t0 => (now - t0) / 60000
        | none => c.duration),
      participants := c.participants.map (fun p =>
        if p.isConnected then
          { p with isConnected := false, leftAt := some now, connectionId := none }
        else p) }
  else c

/-! ## Signaling room state (`RoomState`, `ParticipantConnection`) -/

structure Participant where
  userId : String
  socketId : String
  peerId : String
  user : User
  joinedAt : Nat
  isConnected : Bool
  mediaState : MediaState
deriving DecidableEq, Repr

structure RoomState where
  roomId : String
  callId : String
  hostId : String
  participants : JMap Participant
  createdAt : Nat
  settings : CallSettings
deriving DecidableEq, Repr

/-! ## Outbound events and targets -/

inductive Event where
  | roomCreated (roomId : String)
  | roomJoined (roomId : String) (isHost : Bool)
  | userJoined (peerId userId : String)
  | userLeft (peerId userId : String)
  | mediaChanged (userId peerId : String) (ms : MediaState)
  | chatMsg (senderUserId message : String)
  | callEnded (roomId reason : String)
  | webrtcOffer (source payload : String)
  | webrtcAnswer (source payload : String)
  | webrtcIce (source payload : String)
  | errorEv (message : String) (code : Option String)
  | hostChanged (newHostId : String)
  | sfuTransportCreated (id : Nat)
  | sfuTransportConnected
  | sfuProducerCreated (id : Nat)
  | sfuNewProducer (peerId : String) (producerId : Nat)
  | sfuConsumerCreated (id : Nat) (producerId : Nat)
deriving DecidableEq, Repr

/-- A socket.io emission target: `socket.emit`, `io.to(room).emit`, or
`socket.to(room).emit` (room minus the sending socket). -/
inductive Target where
  | toSocket (sid : String)
  | toRoom (rid : String)
  | toRoomExcept (rid sid : String)
deriving DecidableEq, Repr

abbrev Emission : Type := Target × Event

/-- Socket.io rooms: which sockets have joined which room name. -/
abbrev SioRooms : Type := JMap (List String)

def sioJoin (r : SioRooms) (rid sid : String) : SioRooms :=
  match r.get rid with
  | some l => if sid ∈ l then r else r.set rid (l ++ [sid])
  | none => r.set rid [sid]

def sioLeave (r : SioRooms) (rid sid : String) : SioRooms :=
  match r.get rid with
  | some l => r.set rid (l.filter (fun x => x ≠ sid))
  | none => r

/-- Socket.io removes a disconnecting socket from every room. -/
def sioPurge (r : SioRooms) (sid : String) : SioRooms :=
  r.map (fun e => (e.1, e.2.filter (fun x => x ≠ sid)))

/-- The sockets an emission is delivered to, given the socket.io rooms. -/
def deliveredSockets (r : SioRooms) : Target → List String
  | .toSocket sid => [sid]
  | .toRoom rid => (r.get rid).getD []
  | .toRoomExcept rid sid => ((r.get rid).getD []).filter (fun x => x ≠ sid)

/-! ## RoomService state machine -/

structure ServerState where
  db : JMap CallRecord
  rooms : JMap RoomState
  socketToRoom : JMap String
  socketToUser : JMap String
  sioRooms : SioRooms
  pendingReaps : List (Nat × String × String)
  now : Nat
deriving DecidableEq, Repr

def initStateWith (db0 : JMap CallRecord) : ServerState :=
  { db := db0, rooms := [], socketToRoom := [], socketToUser := [],
    sioRooms := [], pendingReaps := [], now := 0 }

/-- `RoomService.getRoomBySocket`. -/
def getRoomBySocket (st : ServerState) (sid : String) : Option RoomState :=
  (st.socketToRoom.get sid).bind (fun rid => st.rooms.get rid)

/-- `RoomService.getParticipantBySocket`, also exposing the room id and the
participant's key in the room map (the source returns the object reference,
which identifies both). -/
def getParticipantEntryBySocket (st : ServerState) (sid : String) :
    Option (String × String × Participant) :=
  match st.socketToRoom.get sid with
  | none => none
  | some rid =>
    match st.rooms.get rid with
    | none => none
    | some room =>
      match room.participants.findFirstEntry (fun p => p.socketId = sid) with
      | none => none
      | some e => some (rid, e.1, e.2)

namespace ErrCode

def ROOM_NOT_FOUND : String := "ROOM_NOT_FOUND"
def INVALID_PASSCODE : String := "INVALID_PASSCODE"
def ROOM_FULL : String := "ROOM_FULL"
def INTERNAL_ERROR : String := "INTERNAL_ERROR"
def HOST_REQUIRED : String := "HOST_REQUIRED"
def CALL_ENDED : String := "CALL_ENDED"

end ErrCode

/-- The passcode guard in `joinRoom`:
`if (call.passcode && call.passcode !== passcode)`. -/
def passcodeRejected (stored : Option String) (supplied : Option String) : Bool :=
  match stored with
  | none => false
  | some s => supplied ≠ some s

/-- `RoomService.leaveRoom` after the target room id has been resolved
(the handler computes `roomId || socketToRoom.get(socket.id)` first). -/
def leaveRoomCore (st : ServerState) (sid : String) (targetRoomId? : Option String) :
    ServerState × List Emission :=
  match targetRoomId? with
  | none => (st, [])
  | some targetRoomId =>
    match st.rooms.get targetRoomId with
    | none => (st, [])
    | some _room =>
      match getParticipantEntryBySocket st sid with
      | none => (st, [])
      | some (prid, _k, participant) =>
        let rooms2 := (match st.rooms.get prid with
          | some proom => st.rooms.set prid
              { proom with
                participants := proom.participants.modFirst
                  (fun q => q.socketId = sid)
                  (fun q => { q with isConnected := false }) }
          | none => st.rooms)
        let db2 := (match st.db.get targetRoomId with
          | some call =>
            if participant.userId.startsWith "guest_" then st.db
            else st.db.set targetRoomId
              (updateParticipantStatusDb call participant.userId false none st.now)
          | none => st.db)
        ({ st with
            rooms := rooms2,
            socketToRoom := st.socketToRoom.del sid,
            socketToUser := st.socketToUser.del sid,
            sioRooms := sioLeave st.sioRooms targetRoomId sid,
            db := db2,
            pendingReaps := st.pendingReaps ++
              [(st.now + 30000, targetRoomId, participant.peerId)] },
         [(.toRoomExcept targetRoomId sid,
           .userLeft participant.peerId participant.userId)])

/-- `RoomService.leaveRoom` (both variants are line-for-line identical). -/
def leaveRoom (st : ServerState) (sid : String) (roomIdArg : Option String) :
    ServerState × List Emission :=
  leaveRoomCore st sid (match roomIdArg with
    | some r => some r
    | none => st.socketToRoom.get sid)

/-- The body of the 30-second `setTimeout` scheduled by `leaveRoom`. -/
def reapFire (st : ServerState) (rid pid : String) : ServerState :=
  match st.rooms.get rid with
  | none => st
  | some room =>
    match room.participants.get pid with
    | none => st
    | some p =>
      if p.isConnected then st
      else if (room.participants.del pid).length = 0 then
        { st with rooms := st.rooms.del rid }
      else
        { st with rooms := st.rooms.set rid ({ room with participants := room.participants.del pid }) }

/-- The database writes of a successful `joinRoom` (performed on the
`call` document fetched at the start of the handler). -/
def joinDbUpdate (call : CallRecord) (uid sid : String) (now : Nat) : CallRecord :=
  let c1 := (match call.participants.find? (fun p => p.userId = uid) with
    | none =>
      match addParticipantDb call uid .participant now with
      | some c => c
      | none => call
    | some _ => updateParticipantStatusDb call uid true (some sid) now)
  if c1.status = .waiting then startCallDb c1 now else c1

/-- The in-memory commit phase of `joinRoom` (after the checks and the
leave of any previously mapped room). -/
def joinAdd (st1 : ServerState) (sid : String) (u : User) (roomId : String)
    (call : CallRecord) : ServerState × List Emission :=
  let room := (match st1.rooms.get roomId with
    | some r => r
    | none =>
      { roomId := roomId, callId := call.id, participants := [],
        hostId := call.hostId, createdAt := st1.now, settings := call.settings })
  let found := room.participants.findFirstEntry (fun p => p.userId = u.id)
  let res : RoomState × Participant := (match found with
    | some e =>
      ({ room with
         participants := room.participants.modFirst
           (fun q => q.userId = u.id)
           (fun q => { q with socketId := sid, isConnected := true }) },
       { e.2 with socketId := sid, isConnected := true })
    | none =>
      let peerId := "peer_" ++ u.id ++ "_" ++ toString st1.now
      let p : Participant :=
        { userId := u.id, socketId := sid, peerId := peerId, user := u,
          joinedAt := st1.now, isConnected := true,
          mediaState := { videoEnabled := room.settings.videoEnabled,
                          audioEnabled := room.settings.audioEnabled,
                          screenShareEnabled := false } }
      ({ room with participants := room.participants.set peerId p }, p))
  let room2 := res.1
  let part := res.2
  ({ st1 with
      rooms := st1.rooms.set roomId room2,
      socketToRoom := st1.socketToRoom.set sid roomId,
      socketToUser := st1.socketToUser.set sid u.id,
      sioRooms := sioJoin st1.sioRooms roomId sid,
      db := st1.db.set roomId (joinDbUpdate call u.id sid st1.now) },
   [(.toSocket sid, .roomJoined roomId (u.id = room2.hostId)),
    (.toRoomExcept roomId sid, .userJoined part.peerId part.userId)])

/-- `RoomService.joinRoom` (first, authenticated variant). -/
def joinRoom (st : ServerState) (sid : String) (u : User) (roomId : String)
    (passcode : Option String) : ServerState × List Emission :=
  match st.db.get roomId with
  | none =>
    (st, [(.toSocket sid, .errorEv "Room not found" (some ErrCode.ROOM_NOT_FOUND))])
  | some call =>
    if passcodeRejected call.passcode passcode then
      (st, [(.toSocket sid, .errorEv "Invalid passcode" (some ErrCode.INVALID_PASSCODE))])
    else
      let cj := canUserJoin call (some u.id)
      if cj.canJoin = false then
        (st, [(.toSocket sid,
               .errorEv (cj.reason.getD "Cannot join room") (some ErrCode.ROOM_FULL))])
      else
        let pre := (match st.socketToRoom.get sid with
          | some existingRoomId => leaveRoom st sid (some existingRoomId)
          | none => (st, []))
        let res := joinAdd pre.1 sid u roomId call
        (res.1, pre.2 ++ res.2)

/-- `RoomService.createRoom` (first variant).  The mongoose schema strips
the unknown settings keys the handler passes, so the stored settings are
the schema defaults and `maxParticipants` is the top-level default `100`;
a duplicate `roomId` fails the unique index, which the handler reports as
a generic creation failure. -/
def createRoom (st : ServerState) (sid : String) (u : User)
    (frontendRoomId : Option String) (status : CallStatus) :
    ServerState × List Emission :=
  let roomId := (match frontendRoomId with
    | some r => r
    | none => "room_" ++ toString st.now)
  if (st.db.get roomId).isSome then
    (st, [(.toSocket sid, .errorEv "Failed to create room" (some ErrCode.INTERNAL_ERROR))])
  else
    let call : CallRecord :=
      { id := "call_" ++ roomId, roomId := roomId, hostId := u.id,
        status := status, typ := .publicCall, settings := defaultCallSettings,
        passcode := none, maxParticipants := 100,
        participants := [{ userId := u.id, joinedAt := st.now, leftAt := none,
                           role := .host, isConnected := false, connectionId := none }],
        startedAt := none, endedAt := none, duration := 0 }
    let peerId := "peer_" ++ sid ++ "_" ++ toString st.now
    let hostParticipant : Participant :=
      { userId := u.id, socketId := sid, peerId := peerId, user := u,
        joinedAt := st.now, isConnected := true,
        mediaState := { videoEnabled := true, audioEnabled := true,
                        screenShareEnabled := false } }
    let room : RoomState :=
      { roomId := roomId, callId := call.id, hostId := u.id,
        participants := JMap.set [] peerId hostParticipant,
        createdAt := st.now, settings := call.settings }
    ({ st with
        db := st.db.set roomId call,
        rooms := st.rooms.set roomId room,
        socketToRoom := st.socketToRoom.set sid roomId,
        socketToUser := st.socketToUser.set sid u.id,
        sioRooms := sioJoin st.sioRooms roomId sid },
     [(.toSocket sid, .roomCreated roomId)])

/-- `RoomService.updateParticipantMediaState`. -/
def updateMediaState (st : ServerState) (sid : String) (m : MediaState) :
    ServerState × List Emission :=
  match getParticipantEntryBySocket st sid, getRoomBySocket st sid with
  | some (prid, _k, participant), some room =>
    ({ st with
        rooms := (match st.rooms.get prid with
          | some proom => st.rooms.set prid
              { proom with
                participants := proom.participants.modFirst
                  (fun q => q.socketId = sid)
                  (fun q => { q with mediaState := m }) }
          | none => st.rooms) },
     [(.toRoomExcept room.roomId sid,
       .mediaChanged participant.userId participant.peerId m)])
  | _, _ => (st, [])

/-- `RoomService.endCall`. -/
def endCall (st : ServerState) (sid : String) : ServerState × List Emission :=
  match getRoomBySocket st sid, getParticipantEntryBySocket st sid with
  | some room, some (_prid, _k, participant) =>
    if participant.userId ≠ room.hostId then
      (st, [(.toSocket sid, .errorEv "Only host can end the call" none)])
    else
      let db2 := (match st.db.get room.roomId with
        | some c => st.db.set room.roomId (endCallDb c st.now)
        | none => st.db)
      let cleared := room.participants.values.foldl
        (fun (maps : JMap String × JMap String) p =>
          if p.socketId ≠ "" then (maps.1.del p.socketId, maps.2.del p.socketId)
          else maps)
        (st.socketToRoom, st.socketToUser)
      ({ st with
          db := db2,
          rooms := st.rooms.del room.roomId,
          socketToRoom := cleared.1,
          socketToUser := cleared.2 },
       [(.toRoom room.roomId, .callEnded room.roomId "Host ended the call")])
  | _, _ => (st, [(.toSocket sid, .errorEv "Room not found" none)])

/-- The `chat:message` handler of `src/signaling-server/index.ts`: note it
looks the participant up with `room.participants.get(socket.id)`, although
the `RoomService` keys participants by `peerId`. -/
def chatHandler (st : ServerState) (sid : String) (text : String) :
    ServerState × List Emission :=
  match st.socketToRoom.get sid with
  | none => (st, [])
  | some rid =>
    match st.rooms.get rid with
    | none => (st, [])
    | some room =>
      match room.participants.get sid with
      | none => (st, [])
      | some participant =>
        (st, [(.toRoom rid, .chatMsg participant.userId text)])

/-! ## Operations and runs -/

inductive Op where
  | opCreate (sid : String) (u : User) (frontendRoomId : Option String) (status : CallStatus)
  | opJoin (sid : String) (u : User) (roomId : String) (passcode : Option String)
  | opLeave (sid : String) (roomIdArg : Option String)
  | opDisconnect (sid : String)
  | opEndCall (sid : String)
  | opMedia (sid : String) (m : MediaState)
  | opChat (sid : String) (text : String)
  | opReap (i : Nat)
  | opTick (dt : Nat)
deriving DecidableEq, Repr

/-- Fire the pending reap timer number `i` if its time has come. -/
def fireReapAt (st : ServerState) (i : Nat) : ServerState :=
  match st.pendingReaps.get? i with
  | none => st
  | some r =>
    if r.1 ≤ st.now then
      reapFire { st with pendingReaps := st.pendingReaps.eraseIdx i } r.2.1 r.2.2
    else st

/-- The socket whose action an operation represents. -/
def opActor : Op → Option String
  | .opCreate sid _ _ _ => some sid
  | .opJoin sid _ _ _ => some sid
  | .opLeave sid _ => some sid
  | .opDisconnect sid => some sid
  | .opEndCall sid => some sid
  | .opMedia sid _ => some sid
  | .opChat sid _ => some sid
  | .opReap _ => none
  | .opTick _ => none

def step (st : ServerState) (op : Op) : ServerState × List Emission :=
  match op with
  | .opCreate sid u frontendRoomId status => createRoom st sid u frontendRoomId status
  | .opJoin sid u roomId passcode => joinRoom st sid u roomId passcode
  | .opLeave sid roomIdArg => leaveRoom st sid roomIdArg
  | .opDisconnect sid =>
    match st.socketToRoom.get sid with
    | some rid =>
      let res := leaveRoom st sid (some rid)
      ({ res.1 with sioRooms := sioPurge res.1.sioRooms sid }, res.2)
    | none => ({ st with sioRooms := sioPurge st.sioRooms sid }, [])
  | .opEndCall sid => endCall st sid
  | .opMedia sid m => updateMediaState st sid m
  | .opChat sid text => chatHandler st sid text
  | .opReap i => (fireReapAt st i, [])
  | .opTick dt => ({ st with now := st.now + dt }, [])

def run (st : ServerState) (ops : List Op) : ServerState :=
  ops.foldl (fun s op => (step s op).1) st

/-- Run from a state seeded with the given call records (calls are created
through the REST API or through `room:create`). -/
def runFrom (db0 : JMap CallRecord) (ops : List Op) : ServerState :=
  run (initStateWith db0) ops


/-! ## Working signaling server variant
(`src/signaling-server/working-signaling-server.ts`, `SignalingService`) -/

structure WsParticipant where
  id : String
  socketId : String
  userId : Option String
  name : String
  isConnected : Bool
  joinedAt : Nat
  role : ParticipantRole
  audioEnabled : Bool
  videoEnabled : Bool
deriving DecidableEq, Repr

/-- In this variant `participants` is keyed by socket id and the room
carries `settings.maxParticipants` (always 10 at creation). -/
structure WsRoom where
  roomId : String
  hostId : String
  participants : JMap WsParticipant
  createdAt : Nat
  isActive : Bool
  maxParticipants : Nat
deriving DecidableEq, Repr

structure WsState where
  rooms : JMap WsRoom
  socketToRoom : JMap String
  sioRooms : SioRooms
  now : Nat
deriving DecidableEq, Repr

def wsInit : WsState :=
  { rooms := [], socketToRoom := [], sioRooms := [], now := 0 }

/-- `SignalingService.joinRoom` of the working signaling server. -/
def wsJoinRoom (st : WsState) (sid : String) (userId : Option String)
    (name : String) (isHost : Bool) (roomId : String) : WsState × List Emission :=
  let create := (st.rooms.get roomId).isNone
  let room0 := (match st.rooms.get roomId with
    | some r => r
    | none =>
      { roomId := roomId, hostId := userId.getD sid, participants := [],
        createdAt := st.now, isActive := true, maxParticipants := 10 })
  let st1 := if create then { st with rooms := st.rooms.set roomId room0 } else st
  if room0.maxParticipants ≤ room0.participants.size then
    (st1, [(.toSocket sid, .errorEv "Room is full" (some "ROOM_FULL"))])
  else
    let participant : WsParticipant :=
      { id := userId.getD sid, socketId := sid, userId := userId, name := name,
        isConnected := true, joinedAt := st.now,
        role := if isHost ∨ room0.participants.size = 0 then .host else .participant,
        audioEnabled := true, videoEnabled := true }
    let room1 := { room0 with participants := room0.participants.set sid participant }
    ({ st1 with
        rooms := st1.rooms.set roomId room1,
        socketToRoom := st1.socketToRoom.set sid roomId,
        sioRooms := sioJoin st1.sioRooms roomId sid },
     [(.toSocket sid, .roomJoined roomId (participant.role = .host)),
      (.toRoomExcept roomId sid, .userJoined participant.id participant.id)])

/-- `SignalingService.leaveRoom`: removes the participant and, when the
host leaves a non-empty room, promotes the first remaining participant and
rewrites `room.hostId`. -/
def wsLeaveRoom (st : WsState) (sid : String) : WsState × List Emission :=
  match st.socketToRoom.get sid with
  | none => (st, [])
  | some roomId =>
    match st.rooms.get roomId with
    | none => (st, [])
    | some room =>
      match room.participants.get sid with
      | none => (st, [])
      | some participant =>
        let remaining := room.participants.del sid
        let st1 := { st with socketToRoom := st.socketToRoom.del sid }
        let leftEv : List Emission :=
          [(.toRoomExcept roomId sid, .userLeft participant.id participant.id)]
        if remaining.size = 0 then
          ({ st1 with rooms := st1.rooms.del roomId }, leftEv)
        else if participant.role = .host then
          match remaining.values.head? with
          | some newHost =>
            let remaining2 := remaining.modFirst (fun _ => true)
              (fun q => { q with role := .host })
            let rooms2 := st1.rooms.set roomId
              ({ room with participants := remaining2, hostId := newHost.id })
            ({ st1 with rooms := rooms2 },
             leftEv ++ [(.toRoomExcept roomId sid, .hostChanged newHost.id)])
          | none =>
            let rooms2 := st1.rooms.set roomId ({ room with participants := remaining })
            ({ st1 with rooms := rooms2 }, leftEv)
        else
          let rooms2 := st1.rooms.set roomId ({ room with participants := remaining })
          ({ st1 with rooms := rooms2 }, leftEv)

/-- The `chat:message` handler of the working signaling server: the
message is broadcast with `io.to(roomId)`, i.e. to the whole room
including the sender. -/
def wsChat (st : WsState) (sid : String) (text : String) : WsState × List Emission :=
  match st.socketToRoom.get sid with
  | none => (st, [])
  | some roomId =>
    match st.rooms.get roomId with
    | none => (st, [])
    | some room =>
      match room.participants.get sid with
      | none => (st, [])
      | some participant =>
        (st, [(.toRoom roomId, .chatMsg participant.id text)])

inductive WsOp where
  | wjoin (sid : String) (userId : Option String) (name : String) (isHost : Bool) (roomId : String)
  | wleave (sid : String)
  | wchat (sid : String) (text : String)
deriving DecidableEq, Repr

def wsStep (st : WsState) (op : WsOp) : WsState × List Emission :=
  match op with
  | .wjoin sid userId name isHost roomId => wsJoinRoom st sid userId name isHost roomId
  | .wleave sid => wsLeaveRoom st sid
  | .wchat sid text => wsChat st sid text

def wsRun (ops : List WsOp) : WsState :=
  ops.foldl (fun s op => (wsStep s op).1) wsInit

/-! ## SFU service (`src/sfu-server/services/sfu.service.ts`) -/

inductive MediaKind where
  | audio | video
deriving DecidableEq, Repr

inductive TransportDir where
  | send | recv
deriving DecidableEq, Repr

/-- `SFUParticipant`: note the single optional `transport` and the single
optional `producer` reference in the source interface. -/
structure SfuParticipant where
  peerId : String
  socketId : String
  transport : Option Nat
  producer : Option (Nat × MediaKind)
  consumers : List (Nat × Nat)
deriving DecidableEq, Repr

structure SfuRoom where
  roomId : String
  routerId : Nat
  participants : JMap SfuParticipant
  createdAt : Nat
deriving DecidableEq, Repr

/-- `nextId` hands out the fresh ids the media worker would generate for
routers, transports, producers and consumers. -/
structure SfuState where
  rooms : JMap SfuRoom
  socketToRoom : JMap String
  nextId : Nat
  now : Nat
deriving DecidableEq, Repr

def sfuInit : SfuState :=
  { rooms := [], socketToRoom := [], nextId := 0, now := 0 }

/-- `SFUService.joinRoom` (router creation via `getOrCreateRoom` plus the
spread of the client-supplied participant with empty consumers). -/
def sfuJoinRoom (st : SfuState) (sid roomId peerId psocketId : String) :
    SfuState × List Emission :=
  let res : SfuState × SfuRoom := (match st.rooms.get roomId with
    | some r => (st, r)
    | none =>
      let r : SfuRoom := { roomId := roomId, routerId := st.nextId,
                           participants := [], createdAt := st.now }
      ({ st with rooms := st.rooms.set roomId r, nextId := st.nextId + 1 }, r))
  let st1 := res.1
  let room := res.2
  let p : SfuParticipant :=
    { peerId := peerId, socketId := psocketId, transport := none,
      producer := none, consumers := [] }
  ({ st1 with
      rooms := st1.rooms.set roomId ({ room with participants := room.participants.set peerId p }),
      socketToRoom := st1.socketToRoom.set sid roomId },
   [(.toSocket sid, .sfuTransportConnected)])

/-- `SFUService.createWebRtcTransport`: stores the new transport in the
participant record with `participant.transport = transport` (the
`direction` is only echoed back to the client). -/
def sfuCreateTransport (st : SfuState) (sid : String) (_dir : TransportDir) :
    SfuState × List Emission :=
  match st.socketToRoom.get sid with
  | none => (st, [(.toSocket sid, .errorEv "Failed to create transport" none)])
  | some roomId =>
    match st.rooms.get roomId with
    | none => (st, [(.toSocket sid, .errorEv "Failed to create transport" none)])
    | some room =>
      match room.participants.findFirstEntry (fun p => p.socketId = sid) with
      | none => (st, [(.toSocket sid, .errorEv "Failed to create transport" none)])
      | some e =>
        let tid := st.nextId
        let p2 := { e.2 with transport := some tid }
        let rooms2 := st.rooms.set roomId
          ({ room with participants := room.participants.set e.1 p2 })
        ({ st with nextId := st.nextId + 1, rooms := rooms2 },
         [(.toSocket sid, .sfuTransportCreated tid)])

/-- `SFUService.produce`: stores the new producer with
`participant.producer = producer` and announces it to the other
participants. -/
def sfuProduce (st : SfuState) (sid : String) (kind : MediaKind) :
    SfuState × List Emission :=
  match st.socketToRoom.get sid with
  | none => (st, [(.toSocket sid, .errorEv "Failed to create producer" none)])
  | some roomId =>
    match st.rooms.get roomId with
    | none => (st, [(.toSocket sid, .errorEv "Failed to create producer" none)])
    | some room =>
      match room.participants.findFirstEntry (fun p => p.socketId = sid) with
      | none => (st, [(.toSocket sid, .errorEv "Failed to create producer" none)])
      | some e =>
        if e.2.transport.isNone then
          (st, [(.toSocket sid, .errorEv "Failed to create producer" none)])
        else
          let pid := st.nextId
          let others := room.participants.values.filter
            (fun p => p.peerId ≠ e.2.peerId ∧ p.socketId ≠ "")
          let p2 := { e.2 with producer := some (pid, kind) }
          let rooms2 := st.rooms.set roomId
            ({ room with participants := room.participants.set e.1 p2 })
          ({ st with nextId := st.nextId + 1, rooms := rooms2 },
           (others.map (fun p => ((.toSocket p.socketId : Target),
              (.sfuNewProducer e.2.peerId pid : Event)))) ++
           [(.toSocket sid, .sfuProducerCreated pid)])

/-- `SFUService.consume`: `canCons` is the media worker's answer to
`router.canConsume`. -/
def sfuConsume (st : SfuState) (sid : String) (producerId : Nat) (canCons : Bool) :
    SfuState × List Emission :=
  match st.socketToRoom.get sid with
  | none => (st, [(.toSocket sid, .errorEv "Failed to create consumer" none)])
  | some roomId =>
    match st.rooms.get roomId with
    | none => (st, [(.toSocket sid, .errorEv "Failed to create consumer" none)])
    | some room =>
      match room.participants.findFirstEntry (fun p => p.socketId = sid) with
      | none => (st, [(.toSocket sid, .errorEv "Failed to create consumer" none)])
      | some e =>
        if e.2.transport.isNone then
          (st, [(.toSocket sid, .errorEv "Failed to create consumer" none)])
        else
          match room.participants.findFirstEntry
            (fun p => p.producer.map (·.1) = some producerId) with
          | none => (st, [(.toSocket sid, .errorEv "Failed to create consumer" none)])
          | some _prod =>
            if ¬ canCons then
              (st, [(.toSocket sid, .errorEv "Failed to create consumer" none)])
            else
              let cid := st.nextId
              let p2 := { e.2 with consumers := e.2.consumers ++ [(cid, producerId)] }
              let rooms2 := st.rooms.set roomId
                ({ room with participants := room.participants.set e.1 p2 })
              ({ st with nextId := st.nextId + 1, rooms := rooms2 },
               [(.toSocket sid, .sfuConsumerCreated cid producerId)])

/-- `SFUService.leaveRoom`. -/
def sfuLeaveRoom (st : SfuState) (sid : String) : SfuState :=
  match st.socketToRoom.get sid with
  | none => st
  | some roomId =>
    match st.rooms.get roomId with
    | none => st
    | some room =>
      match room.participants.findFirstEntry (fun p => p.socketId = sid) with
      | none => st
      | some e =>
        let remaining := room.participants.del e.1
        let st1 := { st with socketToRoom := st.socketToRoom.del sid }
        if remaining.size = 0 then { st1 with rooms := st1.rooms.del roomId }
        else { st1 with rooms := st1.rooms.set roomId ({ room with participants := remaining }) }

inductive SfuOp where
  | sjoin (sid roomId peerId psocketId : String)
  | screate (sid : String) (dir : TransportDir)
  | sproduce (sid : String) (kind : MediaKind)
  | sconsume (sid : String) (producerId : Nat) (canCons : Bool)
  | sleave (sid : String)
deriving DecidableEq, Repr

def sfuStep (st : SfuState) (op : SfuOp) : SfuState × List Emission :=
  match op with
  | .sjoin sid roomId peerId psocketId => sfuJoinRoom st sid roomId peerId psocketId
  | .screate sid dir => sfuCreateTransport st sid dir
  | .sproduce sid kind => sfuProduce st sid kind
  | .sconsume sid producerId canCons => sfuConsume st sid producerId canCons
  | .sleave sid => (sfuLeaveRoom st sid, [])

def sfuRun (ops : List SfuOp) : SfuState :=
  ops.foldl (fun s op => (sfuStep s op).1) sfuInit

/-! ## The duplicated WebRTC mesh handlers of `src/signaling-server/index.ts`

The file registers two handlers for each of `webrtc:offer`,
`webrtc:answer` and `webrtc:ice-candidate`; socket.io runs both on every
inbound event.  The first set stamps `from: socket.id`; the second set
forwards the client-supplied `from` field verbatim. -/

/-- Payload of the second set of handlers: `to` is a user id, `srcId` is
the wire-format `from` field chosen by the client. -/
structure Mesh2Data where
  toId : String
  srcId : String
  roomId : String
  payload : String
deriving DecidableEq, Repr

/-- First registered `webrtc:offer` handler:
`socket.to(data.to).emit(.., { from: socket.id, offer })`. -/
def mesh1Offer (sid : String) (toRid payload : String) : Emission :=
  (.toRoomExcept toRid sid, .webrtcOffer sid payload)

def mesh1Answer (sid : String) (toRid payload : String) : Emission :=
  (.toRoomExcept toRid sid, .webrtcAnswer sid payload)

def mesh1Ice (sid : String) (toRid payload : String) : Emission :=
  (.toRoomExcept toRid sid, .webrtcIce sid payload)

/-- Second registered `webrtc:offer` handler: looks the room up by the
client-supplied `roomId`, collects the map keys of the participants whose
`userId` equals `data.to` (the keys are peer ids, although the code calls
them socket ids), and emits `{ from: data.from, offer }` to each via
`io.to`. -/
def mesh2Offer (rooms : JMap RoomState) (sid : String) (d : Mesh2Data) :
    List Emission :=
  match rooms.get d.roomId with
  | none => [(.toSocket sid, .errorEv "Room not found" (some "ROOM_NOT_FOUND"))]
  | some room =>
    let targetSockets := (room.participants.filter (fun e => e.2.userId = d.toId)).map (·.1)
    if targetSockets.isEmpty then
      [(.toSocket sid, .errorEv "Target user not found in room" (some "USER_NOT_FOUND"))]
    else
      targetSockets.map (fun t => ((.toRoom t : Target), (.webrtcOffer d.srcId d.payload : Event)))

def mesh2Answer (rooms : JMap RoomState) (sid : String) (d : Mesh2Data) :
    List Emission :=
  match rooms.get d.roomId with
  | none => [(.toSocket sid, .errorEv "Room not found" (some "ROOM_NOT_FOUND"))]
  | some room =>
    let targetSockets := (room.participants.filter (fun e => e.2.userId = d.toId)).map (·.1)
    if targetSockets.isEmpty then
      [(.toSocket sid, .errorEv "Target user not found in room" (some "USER_NOT_FOUND"))]
    else
      targetSockets.map (fun t => ((.toRoom t : Target), (.webrtcAnswer d.srcId d.payload : Event)))

/-- Second registered `webrtc:ice-candidate` handler (no error emission
when the target is absent). -/
def mesh2Ice (rooms : JMap RoomState) (sid : String) (d : Mesh2Data) :
    List Emission :=
  match rooms.get d.roomId with
  | none => [(.toSocket sid, .errorEv "Room not found" (some "ROOM_NOT_FOUND"))]
  | some room =>
    let targetSockets := (room.participants.filter (fun e => e.2.userId = d.toId)).map (·.1)
    targetSockets.map (fun t => ((.toRoom t : Target), (.webrtcIce d.srcId d.payload : Event)))

/-! ## Cost model for the passcode comparison

`joinRoom` rejects with `call.passcode !== passcode`, a plain string
equality.  `strCmpEq` is short-circuit byte equality and `strCmpCost`
counts the character comparisons it performs. -/

def strCmpEq : List Char → List Char → Bool
  | [], [] => true
  | [], _ :: _ => false
  | _ :: _, [] => false
  | a :: s, b :: t => if a = b then strCmpEq s t else false

/-- Number of character comparisons performed by `strCmpEq`. -/
def strCmpCost : List Char → List Char → Nat
  | [], _ => 0
  | _ :: _, [] => 0
  | a :: s, _b :: t => if a = _b then 1 + strCmpCost s t else 1

/-- Length of the longest common prefix. -/
def lcp : List Char → List Char → Nat
  | a :: s, b :: t => if a = b then lcp s t + 1 else 0
  | _, _ => 0

/-! ## Lemmas about the map model -/

namespace JMap

variable {α : Type} {β : Type}

theorem get_set_self (m : JMap α) (k : String) (v : α) :
    get (set m k v) k = some v := by
  induction m with
  | nil => simp [set, get]
  | cons e es ih =>
    by_cases he : e.1 = k
    · simp [set, if_pos he, get]
    · simp only [set, if_neg he, get]
      exact ih

theorem get_set_ne (m : JMap α) (k k' : String) (v : α) (h : k' ≠ k) :
    get (set m k v) k' = get m k' := by
  induction m with
  | nil =>
    simp only [set, get]
    rw [if_neg (fun hh : k = k' => h hh.symm)]
  | cons e es ih =>
    by_cases he : e.1 = k
    · simp only [set, if_pos he, get]
      rw [if_neg (fun hh : k = k' => h hh.symm),
          if_neg (fun hh : e.1 = k' => h (he.symm.trans hh).symm)]
    · simp only [set, if_neg he, get]
      by_cases he2 : e.1 = k'
      · rw [if_pos he2, if_pos he2]
      · rw [if_neg he2, if_neg he2]
        exact ih

theorem del_sublist (m : JMap α) (k : String) : List.Sublist (del m k) m := by
  induction m with
  | nil => simp [del]
  | cons e es ih =>
    by_cases he : e.1 = k
    · simp only [del, if_pos he]
      exact ih.cons e
    · simp only [del, if_neg he]
      exact ih.cons₂ e

theorem get_del_self (m : JMap α) (k : String) : get (del m k) k = none := by
  induction m with
  | nil => simp [del, get]
  | cons e es ih =>
    by_cases he : e.1 = k
    · simp only [del, if_pos he]
      exact ih
    · simp only [del, if_neg he, get]
      exact ih

theorem get_del_ne (m : JMap α) (k k' : String) (h : k' ≠ k) :
    get (del m k) k' = get m k' := by
  induction m with
  | nil => simp [del]
  | cons e es ih =>
    by_cases he : e.1 = k
    · simp only [del, if_pos he, get]
      rw [if_neg (fun hh : e.1 = k' => h ((he.symm.trans hh).symm))]
      exact ih
    · simp only [del, if_neg he, get]
      by_cases he2 : e.1 = k'
      · rw [if_pos he2, if_pos he2]
      · rw [if_neg he2, if_neg he2]
        exact ih

theorem get_mem {m : JMap α} {k : String} {v : α} (h : get m k = some v) :
    (k, v) ∈ m := by
  induction m with
  | nil => simp [get] at h
  | cons e es ih =>
    by_cases he : e.1 = k
    · simp only [get, if_pos he] at h
      injection h with h2
      subst h2
      obtain ⟨a, b⟩ := e
      cases he
      exact List.mem_cons_self _ _
    · simp only [get, if_neg he] at h
      exact List.mem_cons_of_mem _ (ih h)

theorem mem_set {m : JMap α} {k : String} {v : α} {a : String × α}
    (h : a ∈ set m k v) : a = (k, v) ∨ a ∈ m := by
  induction m with
  | nil =>
    simp only [set, List.mem_singleton] at h
    exact Or.inl h
  | cons e es ih =>
    by_cases he : e.1 = k
    · simp only [set, if_pos he, List.mem_cons] at h
      rcases h with h | h
      · exact Or.inl h
      · exact Or.inr (List.mem_cons_of_mem _ h)
    · simp only [set, if_neg he, List.mem_cons] at h
      rcases h with h | h
      · exact Or.inr (by simp [h])
      · rcases ih h with h2 | h2
        · exact Or.inl h2
        · exact Or.inr (List.mem_cons_of_mem _ h2)

theorem mem_del {m : JMap α} {k : String} {a : String × α}
    (h : a ∈ del m k) : a ∈ m :=
  (del_sublist m k).subset h

theorem mem_modFirst {m : JMap α} {q : α → Bool} {f : α → α} {a : String × α}
    (h : a ∈ modFirst m q f) : a ∈ m ∨ ∃ e ∈ m, a = (e.1, f e.2) := by
  induction m with
  | nil => exact absurd h (by simp [modFirst])
  | cons e es ih =>
    by_cases hq : q e.2
    · simp only [modFirst, if_pos hq, List.mem_cons] at h
      rcases h with h | h
      · exact Or.inr ⟨e, List.mem_cons_self e es, h⟩
      · exact Or.inl (List.mem_cons_of_mem _ h)
    · simp only [modFirst, if_neg hq, List.mem_cons] at h
      rcases h with h | h
      · exact Or.inl (by simp [h])
      · rcases ih h with h2 | h2
        · exact Or.inl (List.mem_cons_of_mem _ h2)
        · rcases h2 with ⟨e2, he2, ha⟩
          exact Or.inr ⟨e2, List.mem_cons_of_mem _ he2, ha⟩

theorem modFirst_length (m : JMap α) (q : α → Bool) (f : α → α) :
    (modFirst m q f).length = m.length := by
  induction m with
  | nil => rfl
  | cons e es ih =>
    by_cases hq : q e.2 <;> simp [modFirst, hq, ih]

theorem mapval_modFirst (m : JMap α) (q : α → Bool) (f : α → α) (g : α → β)
    (hg : ∀ x, g (f x) = g x) :
    (modFirst m q f).map (fun e => g e.2) = m.map (fun e => g e.2) := by
  induction m with
  | nil => rfl
  | cons e es ih =>
    by_cases hq : q e.2 <;> simp [modFirst, hq, ih, hg]

theorem mem_mapval_set {m : JMap α} {k : String} {v : α} (g : α → β) {y : β}
    (h : y ∈ (set m k v).map (fun e => g e.2)) :
    y ∈ m.map (fun e => g e.2) ∨ y = g v := by
  induction m with
  | nil => exact Or.inr (by simpa [set] using h)
  | cons e es ih =>
    by_cases he : e.1 = k
    · simp only [set, if_pos he, List.map_cons, List.mem_cons] at h
      rcases h with h | h
      · exact Or.inr h
      · exact Or.inl (by simp [h])
    · simp only [set, if_neg he, List.map_cons, List.mem_cons] at h
      rcases h with h | h
      · exact Or.inl (by simp [h])
      · rcases ih h with h2 | h2
        · exact Or.inl (by simp [h2])
        · exact Or.inr h2

theorem nodup_mapval_set {m : JMap α} {k : String} {v : α} (g : α → β)
    (hnd : (m.map (fun e => g e.2)).Nodup)
    (hv : g v ∉ m.map (fun e => g e.2)) :
    ((set m k v).map (fun e => g e.2)).Nodup := by
  induction m with
  | nil => simp [set]
  | cons e es ih =>
    rw [List.map_cons, List.nodup_cons] at hnd
    have hv1 : g v ≠ g e.2 := by
      intro hc
      exact hv (by rw [List.map_cons, hc]; exact List.mem_cons_self _ _)
    have hv2 : g v ∉ es.map (fun e => g e.2) := by
      intro hc
      exact hv (by rw [List.map_cons]; exact List.mem_cons_of_mem _ hc)
    by_cases he : e.1 = k
    · simp only [set, if_pos he, List.map_cons, List.nodup_cons]
      exact ⟨hv2, hnd.2⟩
    · simp only [set, if_neg he, List.map_cons, List.nodup_cons]
      refine ⟨?_, ih hnd.2 hv2⟩
      intro hc
      rcases mem_mapval_set g hc with h2 | h2
      · exact hnd.1 h2
      · exact hv1 h2.symm

theorem nodup_mapval_del {m : JMap α} {k : String} (g : α → β)
    (hnd : (m.map (fun e => g e.2)).Nodup) :
    ((del m k).map (fun e => g e.2)).Nodup :=
  List.Nodup.sublist (List.Sublist.map _ (del_sublist m k)) hnd

theorem mem_keys_set {m : JMap α} {k : String} {v : α} {x : String}
    (h : x ∈ (set m k v).map Prod.fst) : x ∈ m.map Prod.fst ∨ x = k := by
  induction m with
  | nil => exact Or.inr (by simpa [set] using h)
  | cons e es ih =>
    by_cases he : e.1 = k
    · simp only [set, if_pos he, List.map_cons, List.mem_cons] at h
      rcases h with h | h
      · exact Or.inr h
      · exact Or.inl (by simp [h])
    · simp only [set, if_neg he, List.map_cons, List.mem_cons] at h
      rcases h with h | h
      · exact Or.inl (by simp [h])
      · rcases ih h with h2 | h2
        · exact Or.inl (by simp [h2])
        · exact Or.inr h2

theorem nodupKeys_set {m : JMap α} {k : String} {v : α}
    (hnd : (m.map Prod.fst).Nodup) : ((set m k v).map Prod.fst).Nodup := by
  induction m with
  | nil => simp [set]
  | cons e es ih =>
    rw [List.map_cons, List.nodup_cons] at hnd
    by_cases he : e.1 = k
    · simp only [set, if_pos he, List.map_cons, List.nodup_cons]
      exact ⟨by simpa [he] using hnd.1, hnd.2⟩
    · simp only [set, if_neg he, List.map_cons, List.nodup_cons]
      refine ⟨?_, ih hnd.2⟩
      intro hc
      rcases mem_keys_set hc with h2 | h2
      · exact hnd.1 h2
      · exact he h2

theorem nodupKeys_del {m : JMap α} {k : String}
    (hnd : (m.map Prod.fst).Nodup) : ((del m k).map Prod.fst).Nodup :=
  List.Nodup.sublist (List.Sublist.map _ (del_sublist m k)) hnd

theorem findFirstEntry_none {m : JMap α} {q : α → Bool}
    (h : findFirstEntry m q = none) : ∀ a ∈ m, q a.2 = false := by
  induction m with
  | nil => simp
  | cons e es ih =>
    by_cases hq : q e.2
    · simp [findFirstEntry, hq] at h
    · simp only [findFirstEntry, if_neg hq] at h
      intro a ha
      rcases List.mem_cons.mp ha with ha | ha
      · simpa [ha] using hq
      · exact ih h a ha

theorem findFirstEntry_some_mem {m : JMap α} {q : α → Bool} {e : String × α}
    (h : findFirstEntry m q = some e) : e ∈ m ∧ q e.2 = true := by
  induction m with
  | nil => simp [findFirstEntry] at h
  | cons e0 es ih =>
    by_cases hq : q e0.2
    · simp only [findFirstEntry, if_pos hq] at h
      cases h
      exact ⟨List.mem_cons_self _ _, hq⟩
    · simp only [findFirstEntry, if_neg hq] at h
      rcases ih h with ⟨hmem, hqe⟩
      exact ⟨List.mem_cons_of_mem _ hmem, hqe⟩

theorem get_modFirst_of_findFirst {m : JMap α} {q : α → Bool} {k : String}
    {p : α} (f : α → α) (hnd : (m.map Prod.fst).Nodup)
    (hf : findFirstEntry m q = some (k, p)) :
    get (modFirst m q f) k = some (f p) := by
  induction m with
  | nil => simp [findFirstEntry] at hf
  | cons e es ih =>
    rw [List.map_cons, List.nodup_cons] at hnd
    by_cases hq : q e.2
    · simp only [findFirstEntry, if_pos hq] at hf
      injection hf with hf2
      subst hf2
      simp [modFirst, hq, get]
    · simp only [findFirstEntry, if_neg hq] at hf
      have hmem := (findFirstEntry_some_mem hf).1
      have hne : e.1 ≠ k := by
        intro he
        exact hnd.1 (he ▸ List.mem_map.mpr ⟨(k, p), hmem, rfl⟩)
      simp only [modFirst, if_neg hq, get]
      rw [if_neg hne]
      exact ih hnd.2 hf

end JMap

/-! ## Registry invariants -/

/-- The user ids of a room's participant map, in insertion order. -/
def uidsOf (m : JMap Participant) : List String :=
  m.map (fun e => e.2.userId)

/-- Every live room's `hostId` agrees with the persisted call record. -/
def HostOk (rooms : JMap RoomState) (db : JMap CallRecord) : Prop :=
  ∀ e ∈ rooms, ∃ c, db.get e.1 = some c ∧ e.2.hostId = c.hostId

/-- `db2` keeps every record of `db` (same key, same host). -/
def DbHostCongr (db db2 : JMap CallRecord) : Prop :=
  ∀ k c, db.get k = some c → ∃ c2, db2.get k = some c2 ∧ c2.hostId = c.hostId

structure Inv (st : ServerState) : Prop where
  uids : ∀ e ∈ st.rooms, (uidsOf e.2.participants).Nodup
  host : HostOk st.rooms st.db
  sKeys : (st.socketToRoom.map Prod.fst).Nodup

theorem dbHostCongr_refl (db : JMap CallRecord) : DbHostCongr db db :=
  fun _k c h => ⟨c, h, rfl⟩

theorem dbHostCongr_trans {db1 db2 db3 : JMap CallRecord}
    (h12 : DbHostCongr db1 db2) (h23 : DbHostCongr db2 db3) :
    DbHostCongr db1 db3 := by
  intro k c h
  rcases h12 k c h with ⟨c2, h2, hh2⟩
  rcases h23 k c2 h2 with ⟨c3, h3, hh3⟩
  exact ⟨c3, h3, hh3.trans hh2⟩

theorem dbHostCongr_set_preserving {db : JMap CallRecord} {k0 : String}
    {c0 c2 : CallRecord} (h0 : db.get k0 = some c0) (hh : c2.hostId = c0.hostId) :
    DbHostCongr db (db.set k0 c2) := by
  intro k c h
  by_cases hk : k = k0
  · subst hk
    rw [h0] at h
    injection h with h
    subst h
    exact ⟨c2, JMap.get_set_self db k c2, hh⟩
  · exact ⟨c, by rw [JMap.get_set_ne db k0 k c2 hk]; exact h, rfl⟩

theorem dbHostCongr_set_fresh {db : JMap CallRecord} {k0 : String}
    {c2 : CallRecord} (h0 : db.get k0 = none) :
    DbHostCongr db (db.set k0 c2) := by
  intro k c h
  by_cases hk : k = k0
  · subst hk
    rw [h0] at h
    cases h
  · exact ⟨c, by rw [JMap.get_set_ne db k0 k c2 hk]; exact h, rfl⟩

theorem hostOk_congr {rooms : JMap RoomState} {db db2 : JMap CallRecord}
    (h : HostOk rooms db) (hc : DbHostCongr db db2) : HostOk rooms db2 := by
  intro e he
  rcases h e he with ⟨c, hg, hh⟩
  rcases hc e.1 c hg with ⟨c2, hg2, hh2⟩
  exact ⟨c2, hg2, by rw [hh, ← hh2]⟩

theorem hostOk_set {rooms : JMap RoomState} {db : JMap CallRecord}
    {rid : String} {newRoom : RoomState}
    (h : HostOk rooms db)
    (hnew : ∃ c, db.get rid = some c ∧ newRoom.hostId = c.hostId) :
    HostOk (rooms.set rid newRoom) db := by
  intro e he
  rcases JMap.mem_set he with he2 | he2
  · subst he2
    exact hnew
  · exact h e he2

theorem hostOk_del {rooms : JMap RoomState} {db : JMap CallRecord}
    {rid : String} (h : HostOk rooms db) : HostOk (rooms.del rid) db :=
  fun e he => h e (JMap.mem_del he)

theorem uidsOk_set {rooms : JMap RoomState} {rid : String} {newRoom : RoomState}
    (h : ∀ e ∈ rooms, (uidsOf e.2.participants).Nodup)
    (hnew : (uidsOf newRoom.participants).Nodup) :
    ∀ e ∈ rooms.set rid newRoom, (uidsOf e.2.participants).Nodup := by
  intro e he
  rcases JMap.mem_set he with he2 | he2
  · subst he2
    exact hnew
  · exact h e he2

theorem uidsOk_del {rooms : JMap RoomState} {rid : String}
    (h : ∀ e ∈ rooms, (uidsOf e.2.participants).Nodup) :
    ∀ e ∈ rooms.del rid, (uidsOf e.2.participants).Nodup :=
  fun e he => h e (JMap.mem_del he)

theorem updateParticipantStatusDb_hostId (c : CallRecord) (u : String)
    (b : Bool) (cid : Option String) (t : Nat) :
    (updateParticipantStatusDb c u b cid t).hostId = c.hostId := rfl

theorem startCallDb_hostId (c : CallRecord) (t : Nat) :
    (startCallDb c t).hostId = c.hostId := by
  unfold startCallDb
  split <;> rfl

theorem endCallDb_hostId (c : CallRecord) (t : Nat) :
    (endCallDb c t).hostId = c.hostId := by
  unfold endCallDb
  split <;> rfl

theorem addParticipantDb_hostId {c c2 : CallRecord} {u : String}
    {r : ParticipantRole} {t : Nat} (h : addParticipantDb c u r t = some c2) :
    c2.hostId = c.hostId := by
  unfold addParticipantDb at h
  split at h
  · injection h with h
    subst h
    rfl
  · split at h
    · cases h
    · injection h with h
      subst h
      rfl

theorem joinDbUpdate_hostId (c : CallRecord) (u s : String) (t : Nat) :
    (joinDbUpdate c u s t).hostId = c.hostId := by
  unfold joinDbUpdate
  cases hfind : c.participants.find? (fun p => p.userId = u) with
  | none =>
    cases hadd : addParticipantDb c u .participant t with
    | none =>
      simp only [hfind, hadd]
      split
      · rw [startCallDb_hostId]
      · rfl
    | some c2 =>
      simp only [hfind, hadd]
      split
      · rw [startCallDb_hostId]
        exact addParticipantDb_hostId hadd
      · exact addParticipantDb_hostId hadd
  | some p0 =>
    simp only [hfind]
    split
    · rw [startCallDb_hostId, updateParticipantStatusDb_hostId]
    · rw [updateParticipantStatusDb_hostId]


/-- `uidsOf` is unchanged by mutations that keep `userId`. -/
theorem uidsOf_modFirst (m : JMap Participant) (q : Participant → Bool)
    (f : Participant → Participant) (hf : ∀ x, (f x).userId = x.userId) :
    uidsOf (JMap.modFirst m q f) = uidsOf m :=
  JMap.mapval_modFirst m q f (fun p => p.userId) hf

theorem uidsOf_del_nodup (m : JMap Participant) (k : String)
    (h : (uidsOf m).Nodup) : (uidsOf (JMap.del m k)).Nodup := by
  unfold uidsOf at h ⊢
  exact JMap.nodup_mapval_del (fun p : Participant => p.userId) h

theorem uidsOf_set_fresh (m : JMap Participant) (k : String) (v : Participant)
    (h : (uidsOf m).Nodup) (hv : v.userId ∉ uidsOf m) :
    (uidsOf (JMap.set m k v)).Nodup := by
  unfold uidsOf at h hv ⊢
  exact JMap.nodup_mapval_set (fun p : Participant => p.userId) h hv

theorem leaveCore_dbHostCongr (st : ServerState) (sid : String)
    (tgt? : Option String) :
    DbHostCongr st.db (leaveRoomCore st sid tgt?).1.db := by
  cases tgt? with
  | none => exact dbHostCongr_refl _
  | some tgt =>
    cases hroom : st.rooms.get tgt with
    | none =>
      simp only [leaveRoomCore, hroom]
      exact dbHostCongr_refl _
    | some room =>
      cases hpart : getParticipantEntryBySocket st sid with
      | none =>
        simp only [leaveRoomCore, hroom, hpart]
        exact dbHostCongr_refl _
      | some trip =>
        obtain ⟨prid, k, participant⟩ := trip
        simp only [leaveRoomCore, hroom, hpart]
        cases hget : st.db.get tgt with
        | none =>
          simp only [hget]
          exact dbHostCongr_refl _
        | some call =>
          simp only [hget]
          split
          · exact dbHostCongr_refl _
          · exact dbHostCongr_set_preserving hget
              (updateParticipantStatusDb_hostId call participant.userId false none st.now)

theorem inv_leaveRoomCore {st : ServerState} (h : Inv st) (sid : String)
    (tgt? : Option String) : Inv (leaveRoomCore st sid tgt?).1 := by
  cases tgt? with
  | none => exact h
  | some tgt =>
    cases hroom : st.rooms.get tgt with
    | none =>
      simp only [leaveRoomCore, hroom]
      exact h
    | some room =>
      cases hpart : getParticipantEntryBySocket st sid with
      | none =>
        simp only [leaveRoomCore, hroom, hpart]
        exact h
      | some trip =>
        obtain ⟨prid, k, participant⟩ := trip
        simp only [leaveRoomCore, hroom, hpart]
        refine ⟨?_, ?_, ?_⟩
        · cases hproom : st.rooms.get prid with
          | none =>
            simp only [hproom]
            exact h.uids
          | some proom =>
            simp only [hproom]
            apply uidsOk_set h.uids
            have hnd := h.uids (prid, proom) (JMap.get_mem hproom)
            show (uidsOf (proom.participants.modFirst _ _)).Nodup
            rw [uidsOf_modFirst]
            · exact hnd
            · intro x
              rfl
        · have hcongr : DbHostCongr st.db (match st.db.get tgt with
              | some call =>
                if participant.userId.startsWith "guest_" then st.db
                else st.db.set tgt
                  (updateParticipantStatusDb call participant.userId false none st.now)
              | none => st.db) := by
            cases hget : st.db.get tgt with
            | none =>
              simp only [hget]
              exact dbHostCongr_refl _
            | some call =>
              simp only [hget]
              split
              · exact dbHostCongr_refl _
              · exact dbHostCongr_set_preserving hget
                  (updateParticipantStatusDb_hostId call participant.userId false none st.now)
          refine hostOk_congr ?_ hcongr
          cases hproom : st.rooms.get prid with
          | none =>
            simp only [hproom]
            exact h.host
          | some proom =>
            simp only [hproom]
            apply hostOk_set h.host
            exact h.host (prid, proom) (JMap.get_mem hproom)
        · exact JMap.nodupKeys_del h.sKeys

theorem leave_dbHostCongr (st : ServerState) (sid : String) (rarg : Option String) :
    DbHostCongr st.db (leaveRoom st sid rarg).1.db :=
  leaveCore_dbHostCongr st sid _

theorem inv_leaveRoom {st : ServerState} (h : Inv st) (sid : String)
    (rarg : Option String) : Inv (leaveRoom st sid rarg).1 :=
  inv_leaveRoomCore h sid _

theorem inv_reapFire {st : ServerState} (h : Inv st) (rid pid : String) :
    Inv (reapFire st rid pid) := by
  cases hroom : st.rooms.get rid with
  | none =>
    simp only [reapFire, hroom]
    exact h
  | some room =>
    cases hp : room.participants.get pid with
    | none =>
      simp only [reapFire, hroom, hp]
      exact h
    | some p =>
      simp only [reapFire, hroom, hp]
      by_cases hc : p.isConnected = true
      · rw [if_pos hc]
        exact h
      · rw [if_neg hc]
        by_cases hlen : (room.participants.del pid).length = 0
        · rw [if_pos hlen]
          exact ⟨uidsOk_del h.uids, hostOk_del h.host, h.sKeys⟩
        · rw [if_neg hlen]
          refine ⟨?_, ?_, h.sKeys⟩
          · apply uidsOk_set h.uids
            exact uidsOf_del_nodup _ _ (h.uids (rid, room) (JMap.get_mem hroom))
          · apply hostOk_set h.host
            exact h.host (rid, room) (JMap.get_mem hroom)

theorem hostOk_join_write {rooms : JMap RoomState} {db : JMap CallRecord}
    {roomId : String} {room2 : RoomState} {cNew : CallRecord}
    (h : HostOk rooms db) (h2 : room2.hostId = cNew.hostId)
    (hcc : ∀ c1, db.get roomId = some c1 → c1.hostId = cNew.hostId) :
    HostOk (rooms.set roomId room2) (db.set roomId cNew) := by
  intro e he
  rcases JMap.mem_set he with he2 | he2
  · subst he2
    exact ⟨cNew, JMap.get_set_self _ _ _, h2⟩
  · rcases h e he2 with ⟨c, hg, hh⟩
    by_cases hk : e.1 = roomId
    · rw [hk] at hg
      refine ⟨cNew, ?_, ?_⟩
      · rw [hk]
        exact JMap.get_set_self _ _ _
      · rw [hh, hcc c hg]
    · refine ⟨c, ?_, hh⟩
      rw [JMap.get_set_ne _ _ _ _ hk]
      exact hg

theorem joinAdd_db (st1 : ServerState) (sid : String) (u : User)
    (roomId : String) (call : CallRecord) :
    (joinAdd st1 sid u roomId call).1.db =
      st1.db.set roomId (joinDbUpdate call u.id sid st1.now) := rfl

theorem joinAdd_dbHostCongr (st1 : ServerState) (sid : String) (u : User)
    (roomId : String) (call : CallRecord)
    (hc : ∀ c1, st1.db.get roomId = some c1 → c1.hostId = call.hostId) :
    DbHostCongr st1.db (joinAdd st1 sid u roomId call).1.db := by
  rw [joinAdd_db]
  intro k c hk
  by_cases hkk : k = roomId
  · subst hkk
    refine ⟨joinDbUpdate call u.id sid st1.now, JMap.get_set_self _ _ _, ?_⟩
    rw [joinDbUpdate_hostId, hc c hk]
  · refine ⟨c, ?_, rfl⟩
    rw [JMap.get_set_ne _ _ _ _ hkk]
    exact hk

theorem inv_joinAdd {st1 : ServerState} (h : Inv st1) (sid : String) (u : User)
    (roomId : String) (call : CallRecord)
    (hc : ∀ c1, st1.db.get roomId = some c1 → c1.hostId = call.hostId) :
    Inv (joinAdd st1 sid u roomId call).1 := by
  cases hroom : st1.rooms.get roomId with
  | none =>
    simp only [joinAdd, hroom, JMap.findFirstEntry]
    refine ⟨?_, ?_, ?_⟩
    · apply uidsOk_set h.uids
      simp [uidsOf, JMap.set]
    · exact hostOk_join_write h.host
        (by rw [joinDbUpdate_hostId])
        (fun c1 h1 => by rw [hc c1 h1, joinDbUpdate_hostId])
    · exact JMap.nodupKeys_set h.sKeys
  | some room =>
    cases hfound : room.participants.findFirstEntry (fun p => p.userId = u.id) with
    | some e0 =>
      simp only [joinAdd, hroom, hfound]
      refine ⟨?_, ?_, ?_⟩
      · apply uidsOk_set h.uids
        have hnd := h.uids (roomId, room) (JMap.get_mem hroom)
        show (uidsOf (room.participants.modFirst _ _)).Nodup
        rw [uidsOf_modFirst]
        · exact hnd
        · intro x
          rfl
      · rcases h.host (roomId, room) (JMap.get_mem hroom) with ⟨c, hg, hh⟩
        refine hostOk_join_write h.host ?_
          (fun c1 h1 => by rw [hc c1 h1, joinDbUpdate_hostId])
        show room.hostId = _
        rw [joinDbUpdate_hostId, hh, hc c hg]
      · exact JMap.nodupKeys_set h.sKeys
    | none =>
      simp only [joinAdd, hroom, hfound]
      refine ⟨?_, ?_, ?_⟩
      · apply uidsOk_set h.uids
        have hnd := h.uids (roomId, room) (JMap.get_mem hroom)
        apply uidsOf_set_fresh _ _ _ hnd
        intro hmem
        unfold uidsOf at hmem
        rcases List.mem_map.mp hmem with ⟨a, ha, hau⟩
        have := JMap.findFirstEntry_none hfound a ha
        rw [hau] at this
        simp at this
      · rcases h.host (roomId, room) (JMap.get_mem hroom) with ⟨c, hg, hh⟩
        refine hostOk_join_write h.host ?_
          (fun c1 h1 => by rw [hc c1 h1, joinDbUpdate_hostId])
        show room.hostId = _
        rw [joinDbUpdate_hostId, hh, hc c hg]
      · exact JMap.nodupKeys_set h.sKeys

theorem inv_joinRoom {st : ServerState} (h : Inv st) (sid : String) (u : User)
    (roomId : String) (passcode : Option String) :
    Inv (joinRoom st sid u roomId passcode).1 := by
  cases hcall : st.db.get roomId with
  | none =>
    simp only [joinRoom, hcall]
    exact h
  | some call =>
    simp only [joinRoom, hcall]
    by_cases hpc : passcodeRejected call.passcode passcode = true
    · rw [if_pos hpc]
      exact h
    · rw [if_neg hpc]
      by_cases hcj : (canUserJoin call (some u.id)).canJoin = false
      · rw [if_pos hcj]
        exact h
      · rw [if_neg hcj]
        cases hs2r : st.socketToRoom.get sid with
        | none =>
          simp only [hs2r]
          refine inv_joinAdd h sid u roomId call ?_
          intro c1 h1
          rw [hcall] at h1
          injection h1 with h1
          rw [h1]
        | some r0 =>
          simp only [hs2r]
          refine inv_joinAdd (inv_leaveRoom h sid (some r0)) sid u roomId call ?_
          intro c1 h1
          rcases leave_dbHostCongr st sid (some r0) roomId call hcall with ⟨c2, hg2, hh2⟩
          rw [hg2] at h1
          injection h1 with h1
          rw [← h1]
          exact hh2

theorem inv_updateMediaState {st : ServerState} (h : Inv st) (sid : String)
    (m : MediaState) : Inv (updateMediaState st sid m).1 := by
  cases hpart : getParticipantEntryBySocket st sid with
  | none =>
    simp only [updateMediaState, hpart]
    exact h
  | some trip =>
    obtain ⟨prid, k, participant⟩ := trip
    cases hroom : getRoomBySocket st sid with
    | none =>
      simp only [updateMediaState, hpart, hroom]
      exact h
    | some room =>
      simp only [updateMediaState, hpart, hroom]
      refine ⟨?_, ?_, h.sKeys⟩
      · cases hproom : st.rooms.get prid with
        | none =>
          simp only [hproom]
          exact h.uids
        | some proom =>
          simp only [hproom]
          apply uidsOk_set h.uids
          have hnd := h.uids (prid, proom) (JMap.get_mem hproom)
          show (uidsOf (proom.participants.modFirst _ _)).Nodup
          rw [uidsOf_modFirst]
          · exact hnd
          · intro x
            rfl
      · cases hproom : st.rooms.get prid with
        | none =>
          simp only [hproom]
          exact h.host
        | some proom =>
          simp only [hproom]
          apply hostOk_set h.host
          exact h.host (prid, proom) (JMap.get_mem hproom)

theorem nodupKeys_clear_fold (l : List Participant)
    (maps : JMap String × JMap String)
    (h1 : (maps.1.map Prod.fst).Nodup) :
    (((l.foldl (fun (maps : JMap String × JMap String) p =>
        if p.socketId ≠ "" then (maps.1.del p.socketId, maps.2.del p.socketId)
        else maps) maps)).1.map Prod.fst).Nodup := by
  induction l generalizing maps with
  | nil => exact h1
  | cons p ps ih =>
    simp only [List.foldl_cons]
    by_cases hp : p.socketId ≠ ""
    · rw [if_pos hp]
      exact ih _ (JMap.nodupKeys_del h1)
    · rw [if_neg hp]
      exact ih _ h1

theorem inv_endCall {st : ServerState} (h : Inv st) (sid : String) :
    Inv (endCall st sid).1 := by
  cases hroom : getRoomBySocket st sid with
  | none =>
    simp only [endCall, hroom]
    exact h
  | some room =>
    cases hpart : getParticipantEntryBySocket st sid with
    | none =>
      simp only [endCall, hroom, hpart]
      exact h
    | some trip =>
      obtain ⟨prid, k, participant⟩ := trip
      simp only [endCall, hroom, hpart]
      by_cases hhost : participant.userId ≠ room.hostId
      · rw [if_pos hhost]
        exact h
      · rw [if_neg hhost]
        refine ⟨uidsOk_del h.uids, ?_, ?_⟩
        · refine hostOk_congr (hostOk_del h.host) ?_
          cases hget : st.db.get room.roomId with
          | none =>
            simp only [hget]
            exact dbHostCongr_refl _
          | some c =>
            simp only [hget]
            exact dbHostCongr_set_preserving hget (endCallDb_hostId c st.now)
        · exact nodupKeys_clear_fold room.participants.values
            (st.socketToRoom, st.socketToUser) h.sKeys

theorem chatHandler_state (st : ServerState) (sid text : String) :
    (chatHandler st sid text).1 = st := by
  cases h1 : st.socketToRoom.get sid with
  | none => simp only [chatHandler, h1]
  | some rid =>
    cases h2 : st.rooms.get rid with
    | none => simp only [chatHandler, h1, h2]
    | some room =>
      cases h3 : room.participants.get sid with
      | none => simp only [chatHandler, h1, h2, h3]
      | some p => simp only [chatHandler, h1, h2, h3]

theorem inv_createRoom {st : ServerState} (h : Inv st) (sid : String) (u : User)
    (frontendRoomId : Option String) (status : CallStatus) :
    Inv (createRoom st sid u frontendRoomId status).1 := by
  unfold createRoom
  set roomId := (match frontendRoomId with
    | some r => r
    | none => "room_" ++ toString st.now) with hrid
  by_cases hdup : (st.db.get roomId).isSome
  · rw [if_pos hdup]
    exact h
  · rw [if_neg hdup]
    have hnone : st.db.get roomId = none := Option.not_isSome_iff_eq_none.mp hdup
    refine ⟨?_, ?_, ?_⟩
    · apply uidsOk_set h.uids
      simp [uidsOf, JMap.set]
    · refine hostOk_join_write h.host rfl ?_
      intro c1 h1
      rw [hnone] at h1
      cases h1
    · exact JMap.nodupKeys_set h.sKeys

theorem reapFire_db (st : ServerState) (rid pid : String) :
    (reapFire st rid pid).db = st.db := by
  cases hroom : st.rooms.get rid with
  | none => simp only [reapFire, hroom]
  | some room =>
    cases hp : room.participants.get pid with
    | none => simp only [reapFire, hroom, hp]
    | some p =>
      simp only [reapFire, hroom, hp]
      by_cases hc : p.isConnected = true
      · rw [if_pos hc]
      · rw [if_neg hc]
        by_cases hlen : (room.participants.del pid).length = 0
        · rw [if_pos hlen]
        · rw [if_neg hlen]

theorem fireReapAt_db (st : ServerState) (i : Nat) :
    (fireReapAt st i).db = st.db := by
  cases hr : st.pendingReaps.get? i with
  | none => simp only [fireReapAt, hr]
  | some r =>
    simp only [fireReapAt, hr]
    by_cases ht : r.1 ≤ st.now
    · rw [if_pos ht]
      exact reapFire_db _ _ _
    · rw [if_neg ht]

theorem inv_fireReapAt {st : ServerState} (h : Inv st) (i : Nat) :
    Inv (fireReapAt st i) := by
  cases hr : st.pendingReaps.get? i with
  | none =>
    simp only [fireReapAt, hr]
    exact h
  | some r =>
    simp only [fireReapAt, hr]
    by_cases ht : r.1 ≤ st.now
    · rw [if_pos ht]
      exact @inv_reapFire { st with pendingReaps := st.pendingReaps.eraseIdx i }
        ⟨h.uids, h.host, h.sKeys⟩ _ _
    · rw [if_neg ht]
      exact h

theorem inv_step {st : ServerState} (h : Inv st) (op : Op) : Inv (step st op).1 := by
  cases op with
  | opCreate sid u frontendRoomId status => exact inv_createRoom h sid u frontendRoomId status
  | opJoin sid u roomId passcode => exact inv_joinRoom h sid u roomId passcode
  | opLeave sid rarg => exact inv_leaveRoom h sid rarg
  | opDisconnect sid =>
    cases hs2r : st.socketToRoom.get sid with
    | none =>
      simp only [step, hs2r]
      exact ⟨h.uids, h.host, h.sKeys⟩
    | some rid =>
      simp only [step, hs2r]
      have hi := inv_leaveRoom h sid (some rid)
      exact ⟨hi.uids, hi.host, hi.sKeys⟩
  | opEndCall sid => exact inv_endCall h sid
  | opMedia sid m => exact inv_updateMediaState h sid m
  | opChat sid text =>
    have := chatHandler_state st sid text
    simp only [step, this]
    exact h
  | opReap i => exact inv_fireReapAt h i
  | opTick dt => exact ⟨h.uids, h.host, h.sKeys⟩

theorem run_cons (st : ServerState) (op : Op) (ops : List Op) :
    run st (op :: ops) = run (step st op).1 ops := rfl

theorem inv_run {st : ServerState} (h : Inv st) (ops : List Op) :
    Inv (run st ops) := by
  induction ops generalizing st with
  | nil => exact h
  | cons op ops ih =>
    rw [run_cons]
    exact ih (inv_step h op)

theorem inv_init (db0 : JMap CallRecord) : Inv (initStateWith db0) := by
  refine ⟨?_, ?_, ?_⟩
  · intro e he
    cases he
  · intro e he
    cases he
  · simp [initStateWith]

theorem inv_runFrom (db0 : JMap CallRecord) (ops : List Op) :
    Inv (runFrom db0 ops) :=
  inv_run (inv_init db0) ops

theorem endCall_dbHostCongr (st : ServerState) (sid : String) :
    DbHostCongr st.db (endCall st sid).1.db := by
  cases hroom : getRoomBySocket st sid with
  | none =>
    simp only [endCall, hroom]
    exact dbHostCongr_refl _
  | some room =>
    cases hpart : getParticipantEntryBySocket st sid with
    | none =>
      simp only [endCall, hroom, hpart]
      exact dbHostCongr_refl _
    | some trip =>
      obtain ⟨prid, k, participant⟩ := trip
      simp only [endCall, hroom, hpart]
      by_cases hhost : participant.userId ≠ room.hostId
      · rw [if_pos hhost]
        exact dbHostCongr_refl _
      · rw [if_neg hhost]
        cases hget : st.db.get room.roomId with
        | none =>
          simp only [hget]
          exact dbHostCongr_refl _
        | some c =>
          simp only [hget]
          exact dbHostCongr_set_preserving hget (endCallDb_hostId c st.now)

theorem updateMediaState_db (st : ServerState) (sid : String) (m : MediaState) :
    (updateMediaState st sid m).1.db = st.db := by
  cases hpart : getParticipantEntryBySocket st sid with
  | none =>
    simp only [updateMediaState, hpart]
  | some trip =>
    obtain ⟨prid, k, participant⟩ := trip
    cases hroom : getRoomBySocket st sid with
    | none => simp only [updateMediaState, hpart, hroom]
    | some room => simp only [updateMediaState, hpart, hroom]

theorem createRoom_dbHostCongr (st : ServerState) (sid : String) (u : User)
    (frontendRoomId : Option String) (status : CallStatus) :
    DbHostCongr st.db (createRoom st sid u frontendRoomId status).1.db := by
  unfold createRoom
  set roomId := (match frontendRoomId with
    | some r => r
    | none => "room_" ++ toString st.now) with hrid
  by_cases hdup : (st.db.get roomId).isSome
  · rw [if_pos hdup]
    exact dbHostCongr_refl _
  · rw [if_neg hdup]
    exact dbHostCongr_set_fresh (Option.not_isSome_iff_eq_none.mp hdup)

theorem join_dbHostCongr (st : ServerState) (sid : String) (u : User)
    (roomId : String) (passcode : Option String) :
    DbHostCongr st.db (joinRoom st sid u roomId passcode).1.db := by
  cases hcall : st.db.get roomId with
  | none =>
    simp only [joinRoom, hcall]
    exact dbHostCongr_refl _
  | some call =>
    simp only [joinRoom, hcall]
    by_cases hpc : passcodeRejected call.passcode passcode = true
    · rw [if_pos hpc]
      exact dbHostCongr_refl _
    · rw [if_neg hpc]
      by_cases hcj : (canUserJoin call (some u.id)).canJoin = false
      · rw [if_pos hcj]
        exact dbHostCongr_refl _
      · rw [if_neg hcj]
        cases hs2r : st.socketToRoom.get sid with
        | none =>
          simp only [hs2r]
          refine joinAdd_dbHostCongr st sid u roomId call ?_
          intro c1 h1
          rw [hcall] at h1
          injection h1 with h1
          rw [h1]
        | some r0 =>
          simp only [hs2r]
          refine dbHostCongr_trans (leave_dbHostCongr st sid (some r0)) ?_
          refine joinAdd_dbHostCongr _ sid u roomId call ?_
          intro c1 h1
          rcases leave_dbHostCongr st sid (some r0) roomId call hcall with ⟨c2, hg2, hh2⟩
          rw [hg2] at h1
          injection h1 with h1
          rw [← h1]
          exact hh2

theorem step_dbHostCongr (st : ServerState) (op : Op) :
    DbHostCongr st.db (step st op).1.db := by
  cases op with
  | opCreate sid u frontendRoomId status => exact createRoom_dbHostCongr st sid u frontendRoomId status
  | opJoin sid u roomId passcode => exact join_dbHostCongr st sid u roomId passcode
  | opLeave sid rarg => exact leave_dbHostCongr st sid rarg
  | opDisconnect sid =>
    cases hs2r : st.socketToRoom.get sid with
    | none =>
      simp only [step, hs2r]
      exact dbHostCongr_refl _
    | some rid =>
      simp only [step, hs2r]
      exact leave_dbHostCongr st sid (some rid)
  | opEndCall sid => exact endCall_dbHostCongr st sid
  | opMedia sid m =>
    have := updateMediaState_db st sid m
    simp only [step, this]
    exact dbHostCongr_refl _
  | opChat sid text =>
    have := chatHandler_state st sid text
    simp only [step, this]
    exact dbHostCongr_refl _
  | opReap i =>
    have := fireReapAt_db st i
    simp only [step, this]
    exact dbHostCongr_refl _
  | opTick dt => exact dbHostCongr_refl _

/-! ## SFU id freshness -/

/-- Every transport or producer id referenced by a participant was handed
out by the worker before `nextId`. -/
def SfuBounds (st : SfuState) : Prop :=
  ∀ e ∈ st.rooms, ∀ pe ∈ e.2.participants,
    (∀ t, pe.2.transport = some t → t < st.nextId) ∧
    (∀ pr k, pe.2.producer = some (pr, k) → pr < st.nextId)

theorem sfuBounds_mono {st : SfuState} {rooms : JMap SfuRoom} {n : Nat}
    (h : ∀ e ∈ rooms, ∀ pe ∈ e.2.participants,
      (∀ t, pe.2.transport = some t → t < st.nextId) ∧
      (∀ pr k, pe.2.producer = some (pr, k) → pr < st.nextId))
    (hn : st.nextId ≤ n) :
    ∀ e ∈ rooms, ∀ pe ∈ e.2.participants,
      (∀ t, pe.2.transport = some t → t < n) ∧
      (∀ pr k, pe.2.producer = some (pr, k) → pr < n) := by
  intro e he pe hpe
  rcases h e he pe hpe with ⟨h1, h2⟩
  exact ⟨fun t ht => lt_of_lt_of_le (h1 t ht) hn,
         fun pr k hk => lt_of_lt_of_le (h2 pr k hk) hn⟩

theorem sfuBounds_step {st : SfuState} (h : SfuBounds st) (op : SfuOp) :
    SfuBounds (sfuStep st op).1 := by
  cases op with
  | sjoin sid roomId peerId psocketId =>
    cases hroom : st.rooms.get roomId with
    | some r =>
      simp only [sfuStep, sfuJoinRoom, hroom]
      intro e he pe hpe
      rcases JMap.mem_set he with he2 | he2
      · subst he2
        rcases JMap.mem_set hpe with hpe2 | hpe2
        · subst hpe2
          exact ⟨fun t ht => Option.noConfusion ht, fun pr k hk => Option.noConfusion hk⟩
        · exact h (roomId, r) (JMap.get_mem hroom) pe hpe2
      · exact h e he2 pe hpe
    | none =>
      simp only [sfuStep, sfuJoinRoom, hroom]
      intro e he pe hpe
      rcases JMap.mem_set he with he2 | he2
      · subst he2
        rcases JMap.mem_set hpe with hpe2 | hpe2
        · subst hpe2
          exact ⟨fun t ht => Option.noConfusion ht, fun pr k hk => Option.noConfusion hk⟩
        · cases hpe2
      · rcases JMap.mem_set he2 with he3 | he3
        · subst he3
          cases hpe
        · exact sfuBounds_mono (fun e2 he2 => h e2 he2) (Nat.le_succ _) e he3 pe hpe
  | screate sid dir =>
    cases hs2r : st.socketToRoom.get sid with
    | none =>
      simp only [sfuStep, sfuCreateTransport, hs2r]
      exact h
    | some roomId =>
      cases hroom : st.rooms.get roomId with
      | none =>
        simp only [sfuStep, sfuCreateTransport, hs2r, hroom]
        exact h
      | some room =>
        cases hfind : room.participants.findFirstEntry (fun p => p.socketId = sid) with
        | none =>
          simp only [sfuStep, sfuCreateTransport, hs2r, hroom, hfind]
          exact h
        | some e0 =>
          simp only [sfuStep, sfuCreateTransport, hs2r, hroom, hfind]
          intro e he pe hpe
          rcases JMap.mem_set he with he2 | he2
          · subst he2
            rcases JMap.mem_set hpe with hpe2 | hpe2
            · subst hpe2
              refine ⟨fun t ht => ?_, fun pr k hk => ?_⟩
              · injection ht with ht
                subst ht
                exact Nat.lt_succ_self _
              · have := (h (roomId, room) (JMap.get_mem hroom) e0
                  (JMap.findFirstEntry_some_mem hfind).1).2 pr k hk
                exact Nat.lt_succ_of_lt this
            · exact sfuBounds_mono (fun e2 he2 => h e2 he2) (Nat.le_succ _)
                (roomId, room) (JMap.get_mem hroom) pe hpe2
          · exact sfuBounds_mono (fun e2 he2 => h e2 he2) (Nat.le_succ _) e he2 pe hpe
  | sproduce sid kind =>
    cases hs2r : st.socketToRoom.get sid with
    | none =>
      simp only [sfuStep, sfuProduce, hs2r]
      exact h
    | some roomId =>
      cases hroom : st.rooms.get roomId with
      | none =>
        simp only [sfuStep, sfuProduce, hs2r, hroom]
        exact h
      | some room =>
        cases hfind : room.participants.findFirstEntry (fun p => p.socketId = sid) with
        | none =>
          simp only [sfuStep, sfuProduce, hs2r, hroom, hfind]
          exact h
        | some e0 =>
          simp only [sfuStep, sfuProduce, hs2r, hroom, hfind]
          by_cases htr : e0.2.transport.isNone = true
          · rw [if_pos htr]
            exact h
          · rw [if_neg htr]
            intro e he pe hpe
            rcases JMap.mem_set he with he2 | he2
            · subst he2
              rcases JMap.mem_set hpe with hpe2 | hpe2
              · subst hpe2
                refine ⟨fun t ht => ?_, fun pr k hk => ?_⟩
                · have := (h (roomId, room) (JMap.get_mem hroom) e0
                    (JMap.findFirstEntry_some_mem hfind).1).1 t ht
                  exact Nat.lt_succ_of_lt this
                · injection hk with hk
                  injection hk with hk1 hk2
                  subst hk1
                  exact Nat.lt_succ_self _
              · exact sfuBounds_mono (fun e2 he2 => h e2 he2) (Nat.le_succ _)
                  (roomId, room) (JMap.get_mem hroom) pe hpe2
            · exact sfuBounds_mono (fun e2 he2 => h e2 he2) (Nat.le_succ _) e he2 pe hpe
  | sconsume sid producerId canCons =>
    cases hs2r : st.socketToRoom.get sid with
    | none =>
      simp only [sfuStep, sfuConsume, hs2r]
      exact h
    | some roomId =>
      cases hroom : st.rooms.get roomId with
      | none =>
        simp only [sfuStep, sfuConsume, hs2r, hroom]
        exact h
      | some room =>
        cases hfind : room.participants.findFirstEntry (fun p => p.socketId = sid) with
        | none =>
          simp only [sfuStep, sfuConsume, hs2r, hroom, hfind]
          exact h
        | some e0 =>
          simp only [sfuStep, sfuConsume, hs2r, hroom, hfind]
          by_cases htr : e0.2.transport.isNone = true
          · rw [if_pos htr]
            exact h
          · rw [if_neg htr]
            cases hprod : room.participants.findFirstEntry
                (fun p => p.producer.map (fun x => x.1) = some producerId) with
            | none =>
              simp only [hprod]
              exact h
            | some prodE =>
              simp only [hprod]
              by_cases hcc : ¬ canCons = true
              · rw [if_pos hcc]
                exact h
              · rw [if_neg hcc]
                intro e he pe hpe
                rcases JMap.mem_set he with he2 | he2
                · subst he2
                  rcases JMap.mem_set hpe with hpe2 | hpe2
                  · subst hpe2
                    have hb := h (roomId, room) (JMap.get_mem hroom) e0
                      (JMap.findFirstEntry_some_mem hfind).1
                    refine ⟨fun t ht => Nat.lt_succ_of_lt (hb.1 t ht),
                            fun pr k hk => Nat.lt_succ_of_lt (hb.2 pr k hk)⟩
                  · exact sfuBounds_mono (fun e2 he2 => h e2 he2) (Nat.le_succ _)
                      (roomId, room) (JMap.get_mem hroom) pe hpe2
                · exact sfuBounds_mono (fun e2 he2 => h e2 he2) (Nat.le_succ _) e he2 pe hpe
  | sleave sid =>
    cases hs2r : st.socketToRoom.get sid with
    | none =>
      simp only [sfuStep, sfuLeaveRoom, hs2r]
      exact h
    | some roomId =>
      cases hroom : st.rooms.get roomId with
      | none =>
        simp only [sfuStep, sfuLeaveRoom, hs2r, hroom]
        exact h
      | some room =>
        cases hfind : room.participants.findFirstEntry (fun p => p.socketId = sid) with
        | none =>
          simp only [sfuStep, sfuLeaveRoom, hs2r, hroom, hfind]
          exact h
        | some e0 =>
          simp only [sfuStep, sfuLeaveRoom, hs2r, hroom, hfind]
          by_cases hlen : (room.participants.del e0.1).size = 0
          · rw [if_pos hlen]
            intro e he pe hpe
            exact h e (JMap.mem_del he) pe hpe
          · rw [if_neg hlen]
            intro e he pe hpe
            rcases JMap.mem_set he with he2 | he2
            · subst he2
              exact h (roomId, room) (JMap.get_mem hroom) pe (JMap.mem_del hpe)
            · exact h e he2 pe hpe

theorem sfuBounds_run (ops : List SfuOp) : SfuBounds (sfuRun ops) := by
  have base : SfuBounds sfuInit := by
    intro e he
    cases he
  suffices hgen : ∀ (ops : List SfuOp) (st : SfuState), SfuBounds st →
      SfuBounds (ops.foldl (fun s op => (sfuStep s op).1) st) by
    exact hgen ops sfuInit base
  intro ops
  induction ops with
  | nil => exact fun st h => h
  | cons op ops ih =>
    intro st h
    exact ih _ (sfuBounds_step h op)

/-! ## Claim C3: passcode comparison cost -/

theorem strCmpEq_iff : ∀ (s t : List Char), strCmpEq s t = true ↔ s = t := by
  intro s
  induction s with
  | nil =>
    intro t
    cases t with
    | nil => simp [strCmpEq]
    | cons b tt => simp [strCmpEq]
  | cons a ss ih =>
    intro t
    cases t with
    | nil => simp [strCmpEq]
    | cons b tt =>
      by_cases hab : a = b
      · subst hab
        simp [strCmpEq, ih tt]
      · simp [strCmpEq, hab]

theorem strCmpCost_eq : ∀ (s t : List Char),
    strCmpCost s t = min (lcp s t + 1) (min s.length t.length) := by
  intro s
  induction s with
  | nil =>
    intro t
    cases t <;> simp [strCmpCost, lcp]
  | cons a ss ih =>
    intro t
    cases t with
    | nil => simp [strCmpCost, lcp]
    | cons b tt =>
      by_cases hab : a = b
      · simp only [strCmpCost, lcp, if_pos hab, List.length_cons]
        rw [ih tt]
        omega
      · simp only [strCmpCost, lcp, if_neg hab, List.length_cons]
        omega

theorem passcodeRejected_eq (s t : String) :
    passcodeRejected (some s) (some t) = !(strCmpEq s.data t.data) := by
  by_cases hst : s = t
  · subst hst
    simp [passcodeRejected, (strCmpEq_iff s.data s.data).mpr rfl]
  · have hne : strCmpEq s.data t.data = false := by
      cases hcase : strCmpEq s.data t.data
      · rfl
      · exfalso
        apply hst
        have hd := (strCmpEq_iff s.data t.data).mp hcase
        cases s
        cases t
        cases hd
        rfl
    have hts : some t ≠ some s := by
      intro hc
      injection hc with hc
      exact hst hc.symm
    simp [passcodeRejected, hne, hts]

/-- C3: the claim as stated is false: the passcode comparison in `joinRoom`
is short-circuit byte equality, and its number of character comparisons
depends on the matching-prefix length.  At two supplied passcodes of equal
length, compared against the same stored passcode, the comparison performs
2 steps when one character of prefix matches and 1 step when none does. -/
theorem c3_passcode_cost_depends_on_prefix :
    strCmpCost "12345678".data "19999999".data = 2 ∧
    strCmpCost "12345678".data "99999999".data = 1 ∧
    lcp "12345678".data "19999999".data = 1 ∧
    lcp "12345678".data "99999999".data = 0 ∧
    ("19999999".data.length = "99999999".data.length) ∧
    strCmpCost "12345678".data "19999999".data ≠
      strCmpCost "12345678".data "99999999".data := by
  refine ⟨by decide, by decide, by decide, by decide, by decide, by decide⟩

/-- C3 (amended): the passcode check of `joinRoom` is plain byte equality
(`call.passcode !== passcode`); its short-circuit comparison cost equals
`min(lcp + 1, min(|s|, |t|))`, i.e. it grows with the matching prefix and
is not constant-time. -/
theorem c3_passcode_byte_equality_cost :
    (∀ s t : List Char, strCmpEq s t = true ↔ s = t) ∧
    (∀ s t : String, passcodeRejected (some s) (some t) = !(strCmpEq s.data t.data)) ∧
    (∀ s t : List Char, strCmpCost s t = min (lcp s t + 1) (min s.length t.length)) :=
  ⟨strCmpEq_iff, passcodeRejected_eq, strCmpCost_eq⟩

/-! ## Claim C1: relay `from` stamping -/

def pC1a : Participant :=
  { userId := "u1", socketId := "s1", peerId := "peer_u1_0",
    user := { id := "u1", name := "A", email := "a@x" }, joinedAt := 0,
    isConnected := true,
    mediaState := { videoEnabled := true, audioEnabled := true, screenShareEnabled := false } }

def pC1b : Participant :=
  { userId := "u2", socketId := "s2", peerId := "peer_u2_0",
    user := { id := "u2", name := "B", email := "b@x" }, joinedAt := 0,
    isConnected := true,
    mediaState := { videoEnabled := true, audioEnabled := true, screenShareEnabled := false } }

def roomsC1 : JMap RoomState :=
  [("R1", { roomId := "R1", callId := "c1", hostId := "u1",
            participants := [("peer_u1_0", pC1a), ("peer_u2_0", pC1b)],
            createdAt := 0, settings := defaultCallSettings })]

/-- C1: the first registered `webrtc:offer` handler stamps the sender's
socket id, but the second registered handler for the same event forwards
the client-supplied `from` field verbatim: a client whose socket is `s1`
(peer `peer_u1_0`, user `u1`) can deliver an offer whose `from` field is
the spoofed string `SPOOF`, which is neither its socket id nor its peer
id.  This contradicts the claim that every forwarded message carries the
server-bound identity. -/
theorem c1_second_offer_handler_forwards_client_from :
    mesh2Offer roomsC1 "s1"
        { toId := "u2", srcId := "SPOOF", roomId := "R1", payload := "sdp" } =
      [(.toRoom "peer_u2_0", .webrtcOffer "SPOOF" "sdp")] ∧
    "SPOOF" ≠ "s1" ∧ "SPOOF" ≠ "peer_u1_0" ∧
    (∀ toRid payload, mesh1Offer "s1" toRid payload =
      (.toRoomExcept toRid "s1", .webrtcOffer "s1" payload)) ∧
    mesh2Answer roomsC1 "s1"
        { toId := "u2", srcId := "SPOOF", roomId := "R1", payload := "sdp" } =
      [(.toRoom "peer_u2_0", .webrtcAnswer "SPOOF" "sdp")] ∧
    mesh2Ice roomsC1 "s1"
        { toId := "u2", srcId := "SPOOF", roomId := "R1", payload := "cand" } =
      [(.toRoom "peer_u2_0", .webrtcIce "SPOOF" "cand")] := by
  refine ⟨by decide, by decide, by decide, fun _ _ => rfl, by decide, by decide⟩

/-! ## Claim C9: SFU transports and producers -/

/-- C9 (amended): an SFU participant holds at most one transport reference
and at most one producer reference; `createWebRtcTransport` and `produce`
overwrite the previous reference with a freshly allocated id, so the
earlier transport or producer is no longer referenced by the participant. -/
theorem c9_transport_and_producer_overwritten :
    ∀ (ops : List SfuOp) (sid : String) (dir : TransportDir) (kind : MediaKind)
      (roomId : String) (room : SfuRoom) (e : String × SfuParticipant),
      (sfuRun ops).socketToRoom.get sid = some roomId →
      (sfuRun ops).rooms.get roomId = some room →
      room.participants.findFirstEntry (fun p => p.socketId = sid) = some e →
      ((∀ t, e.2.transport = some t →
          ((sfuCreateTransport (sfuRun ops) sid dir).1.rooms.get roomId =
            some ({ room with participants := room.participants.set e.1 ({ e.2 with transport := some (sfuRun ops).nextId }) }) ∧
           t ≠ (sfuRun ops).nextId)) ∧
       (∀ pr k, e.2.producer = some (pr, k) → e.2.transport.isNone = false →
          ((sfuProduce (sfuRun ops) sid kind).1.rooms.get roomId =
            some ({ room with participants := room.participants.set e.1 ({ e.2 with producer := some ((sfuRun ops).nextId, kind) }) }) ∧
           pr ≠ (sfuRun ops).nextId))) := by
  intro ops sid dir kind roomId room e hs2r hroom hfind
  have hb := sfuBounds_run ops (roomId, room) (JMap.get_mem hroom) e
    (JMap.findFirstEntry_some_mem hfind).1
  constructor
  · intro t ht
    constructor
    · simp only [sfuCreateTransport, hs2r, hroom, hfind]
      exact JMap.get_set_self _ _ _
    · exact Nat.ne_of_lt (hb.1 t ht)
  · intro pr k hk htr
    constructor
    · simp only [sfuProduce, hs2r, hroom, hfind]
      rw [if_neg (by rw [htr]; exact Bool.false_ne_true)]
      exact JMap.get_set_self _ _ _
    · exact Nat.ne_of_lt (hb.2 pr k hk)

def sfuOpsC9 : List SfuOp := [.sjoin "s1" "A" "p1" "s1", .screate "s1" .send]

def partC9 : SfuParticipant :=
  { peerId := "p1", socketId := "s1", transport := some 1, producer := none,
    consumers := [] }

def roomC9 : SfuRoom :=
  { roomId := "A", routerId := 0, participants := [("p1", partC9)], createdAt := 0 }

theorem c9_witness :
    (sfuCreateTransport (sfuRun sfuOpsC9) "s1" .recv).1.rooms.get "A" =
      some ({ roomC9 with participants := roomC9.participants.set "p1" ({ partC9 with transport := some 2 }) }) ∧
    (1 : Nat) ≠ 2 := by
  have h := (c9_transport_and_producer_overwritten sfuOpsC9 "s1" .recv .audio
    "A" roomC9 ("p1", partC9) (by decide) (by decide) (by decide)).1 1 (by decide)
  exact h

/-- C9 (counterexample): in the run join, create send transport, create
recv transport, the participant ends with only the recv transport id `2`;
the send transport id `1` it held before is no longer referenced, contrary
to the claim that the earlier transport is retained. -/
theorem c9_counterexample_recv_replaces_send :
    ((sfuRun [.sjoin "s1" "A" "p1" "s1", .screate "s1" .send]).rooms.get "A").bind
        (fun r => r.participants.get "p1") =
      some { peerId := "p1", socketId := "s1", transport := some 1,
             producer := none, consumers := [] } ∧
    ((sfuRun [.sjoin "s1" "A" "p1" "s1", .screate "s1" .send,
              .screate "s1" .recv]).rooms.get "A").bind
        (fun r => r.participants.get "p1") =
      some { peerId := "p1", socketId := "s1", transport := some 2,
             producer := none, consumers := [] } ∧
    (some 2 : Option Nat) ≠ some 1 := by
  refine ⟨by decide, by decide, by decide⟩

/-! ## Claim C2: join failure conditions and error codes -/

theorem canUserJoin_ended {c : CallRecord} (uid : Option String)
    (h : c.status = .ended ∨ c.status = .cancelled) :
    canUserJoin c uid = { canJoin := false, reason := some "Call has ended" } := by
  unfold canUserJoin
  rw [if_pos h]

theorem canUserJoin_full {c : CallRecord} (uid : Option String)
    (hne : ¬ (c.status = .ended ∨ c.status = .cancelled))
    (hfull : c.maxParticipants ≤
      (c.participants.filter (fun p => p.leftAt = none)).length) :
    canUserJoin c uid = { canJoin := false, reason := some "Call is full" } := by
  unfold canUserJoin
  rw [if_neg hne]
  dsimp only
  rw [if_pos hfull]

theorem canUserJoin_notInvited {c : CallRecord} (uid : String)
    (hne : ¬ (c.status = .ended ∨ c.status = .cancelled))
    (hfull : ¬ c.maxParticipants ≤
      (c.participants.filter (fun p => p.leftAt = none)).length)
    (htyp : c.typ = .invitedOnly)
    (hinv : ¬ c.participants.any (fun p => some p.userId = some uid)) :
    canUserJoin c (some uid) =
      { canJoin := false, reason := some "You are not invited to this call" } := by
  unfold canUserJoin
  rw [if_neg hne]
  dsimp only
  rw [if_neg hfull]
  rw [if_neg (fun hc => absurd (htyp.symm.trans hc.1)
    (by decide : CallType.invitedOnly ≠ CallType.privateCall))]
  rw [if_pos ⟨htyp, by simp, hinv⟩]

/-- C2 (amended): `joinRoom` fails with error code `ROOM_NOT_FOUND` when no
call record exists, `INVALID_PASSCODE` when the stored passcode is set and
does not equal the supplied one, and with the single error code
`ROOM_FULL` -- distinguished only by the message -- when the call has
ended, when the active participants reach `maxParticipants`, and when an
`invited_only` call does not list the user; in every failure case the
state (rooms, mappings, database) is returned unchanged, so no participant
is added. -/
theorem c2_join_failure_codes :
    ∀ (st : ServerState) (sid : String) (u : User) (roomId : String)
      (passcode : Option String),
      (st.db.get roomId = none →
        joinRoom st sid u roomId passcode =
          (st, [(.toSocket sid, .errorEv "Room not found" (some "ROOM_NOT_FOUND"))])) ∧
      (∀ call, st.db.get roomId = some call →
        passcodeRejected call.passcode passcode = true →
        joinRoom st sid u roomId passcode =
          (st, [(.toSocket sid, .errorEv "Invalid passcode" (some "INVALID_PASSCODE"))])) ∧
      (∀ call, st.db.get roomId = some call →
        passcodeRejected call.passcode passcode = false →
        (call.status = .ended ∨ call.status = .cancelled) →
        joinRoom st sid u roomId passcode =
          (st, [(.toSocket sid, .errorEv "Call has ended" (some "ROOM_FULL"))])) ∧
      (∀ call, st.db.get roomId = some call →
        passcodeRejected call.passcode passcode = false →
        ¬ (call.status = .ended ∨ call.status = .cancelled) →
        call.maxParticipants ≤
          (call.participants.filter (fun p => p.leftAt = none)).length →
        joinRoom st sid u roomId passcode =
          (st, [(.toSocket sid, .errorEv "Call is full" (some "ROOM_FULL"))])) ∧
      (∀ call, st.db.get roomId = some call →
        passcodeRejected call.passcode passcode = false →
        ¬ (call.status = .ended ∨ call.status = .cancelled) →
        ¬ call.maxParticipants ≤
          (call.participants.filter (fun p => p.leftAt = none)).length →
        call.typ = .invitedOnly →
        ¬ call.participants.any (fun p => some p.userId = some u.id) →
        joinRoom st sid u roomId passcode =
          (st, [(.toSocket sid, .errorEv "You are not invited to this call"
            (some "ROOM_FULL"))])) := by
  intro st sid u roomId passcode
  refine ⟨?_, ?_, ?_, ?_, ?_⟩
  · intro hget
    simp only [joinRoom, hget]
    rfl
  · intro call hget hpc
    simp only [joinRoom, hget]
    rw [if_pos hpc]
    rfl
  · intro call hget hpc hended
    simp only [joinRoom, hget]
    rw [if_neg (fun hc => Bool.false_ne_true (hpc.symm.trans hc))]
    rw [canUserJoin_ended (some u.id) hended, if_pos rfl]
    rfl
  · intro call hget hpc hne hfull
    simp only [joinRoom, hget]
    rw [if_neg (fun hc => Bool.false_ne_true (hpc.symm.trans hc))]
    rw [canUserJoin_full (some u.id) hne hfull, if_pos rfl]
    rfl
  · intro call hget hpc hne hfull htyp hinv
    simp only [joinRoom, hget]
    rw [if_neg (fun hc => Bool.false_ne_true (hpc.symm.trans hc))]
    rw [canUserJoin_notInvited u.id hne hfull htyp hinv, if_pos rfl]
    rfl

def callC2 : CallRecord :=
  { id := "c2", roomId := "R2", hostId := "u1", status := .ended,
    typ := .publicCall, settings := defaultCallSettings, passcode := none,
    maxParticipants := 100, participants := [], startedAt := none,
    endedAt := none, duration := 0 }

def callC2pc : CallRecord :=
  { callC2 with
    id := "c3", roomId := "R3", status := .live, passcode := some "1234" }

def stC2 : ServerState := initStateWith [("R2", callC2), ("R3", callC2pc)]

def uC2 : User := { id := "u9", name := "N", email := "n@x" }

theorem c2_witness :
    joinRoom stC2 "s9" uC2 "NOPE" none =
      (stC2, [(.toSocket "s9", .errorEv "Room not found" (some "ROOM_NOT_FOUND"))]) ∧
    joinRoom stC2 "s9" uC2 "R3" (some "0000") =
      (stC2, [(.toSocket "s9", .errorEv "Invalid passcode" (some "INVALID_PASSCODE"))]) := by
  constructor
  · exact (c2_join_failure_codes stC2 "s9" uC2 "NOPE" none).1 (by decide)
  · exact (c2_join_failure_codes stC2 "s9" uC2 "R3" (some "0000")).2.1 callC2pc
      (by decide) (by decide)

/-- C2 (counterexample): joining the ended call `R2` fails with the error
code `ROOM_FULL` (message `Call has ended`), not with any dedicated
`Ended` code, contradicting the claim that terminal calls fail with an
`Ended` error code. -/
theorem c2_counterexample_ended_reported_as_room_full :
    joinRoom stC2 "s9" uC2 "R2" none =
      (stC2, [(.toSocket "s9", .errorEv "Call has ended" (some "ROOM_FULL"))]) ∧
    "ROOM_FULL" ≠ "CALL_ENDED" ∧ "ROOM_FULL" ≠ "ENDED" := by
  refine ⟨?_, by decide, by decide⟩
  exact (c2_join_failure_codes stC2 "s9" uC2 "R2" none).2.2.1 callC2
    (by decide) (by decide) (by decide)

/-! ## Claim C4: at most one participant per (room, user); rebind in place -/

/-- C4: in every reachable registry state the user ids within a room are
pairwise distinct (so at most one connected participant per
`(roomId, userId)` pair), and a join by a user who already has a
Participant in the room rebinds that Participant in place: the map keeps
its size, the entry keeps its key and `peerId`, and only `socketId` and
`isConnected` change. -/
theorem c4_unique_participant_per_user :
    (∀ (db0 : JMap CallRecord) (ops : List Op) (e : String × RoomState),
      e ∈ (runFrom db0 ops).rooms → (uidsOf e.2.participants).Nodup) ∧
    (∀ (st : ServerState) (sid : String) (u : User) (roomId : String)
       (passcode : Option String) (call : CallRecord) (room : RoomState)
       (k : String) (p : Participant),
      st.db.get roomId = some call →
      passcodeRejected call.passcode passcode = false →
      (canUserJoin call (some u.id)).canJoin = true →
      st.socketToRoom.get sid = none →
      st.rooms.get roomId = some room →
      (room.participants.map Prod.fst).Nodup →
      room.participants.findFirstEntry (fun q => q.userId = u.id) = some (k, p) →
      ∃ room2,
        (joinRoom st sid u roomId passcode).1.rooms.get roomId = some room2 ∧
        room2.participants.length = room.participants.length ∧
        room2.participants.get k =
          some ({ p with socketId := sid, isConnected := true })) := by
  constructor
  · intro db0 ops e he
    exact (inv_runFrom db0 ops).uids e he
  · intro st sid u roomId passcode call room k p hcall hpc hcj hs2r hroom hkeys hfind
    simp only [joinRoom, hcall]
    rw [if_neg (fun hc => Bool.false_ne_true (hpc.symm.trans hc))]
    rw [if_neg (fun hc => Bool.noConfusion (hcj.symm.trans hc))]
    simp only [hs2r, joinAdd, hroom, hfind]
    refine ⟨_, JMap.get_set_self _ _ _, JMap.modFirst_length _ _ _, ?_⟩
    exact JMap.get_modFirst_of_findFirst _ hkeys hfind

def callC4 : CallRecord :=
  { id := "c4", roomId := "R4", hostId := "u1", status := .live,
    typ := .publicCall, settings := defaultCallSettings, passcode := none,
    maxParticipants := 100,
    participants := [{ userId := "u1", joinedAt := 0, leftAt := none,
                       role := .host, isConnected := false, connectionId := none }],
    startedAt := some 0, endedAt := none, duration := 0 }

def dbC4 : JMap CallRecord := [("R4", callC4)]

def stC4 : ServerState := runFrom dbC4 [.opJoin "s1" uC2 "R4" none]

/-- The call record of `R4` after the first join persisted `u9`. -/
def callC4b : CallRecord :=
  { callC4 with participants := callC4.participants ++
      [{ userId := "u9", joinedAt := 0, leftAt := none, role := .participant,
         isConnected := false, connectionId := none }] }

def pC4 : Participant :=
  { userId := "u9", socketId := "s1", peerId := "peer_u9_0", user := uC2,
    joinedAt := 0, isConnected := true,
    mediaState := { videoEnabled := true, audioEnabled := true, screenShareEnabled := false } }

def roomC4 : RoomState :=
  { roomId := "R4", callId := "c4", hostId := "u1",
    participants := [("peer_u9_0", pC4)], createdAt := 0,
    settings := defaultCallSettings }

theorem c4_witness :
    ∃ room2,
      (joinRoom stC4 "s2" uC2 "R4" none).1.rooms.get "R4" = some room2 ∧
      room2.participants.length = roomC4.participants.length ∧
      room2.participants.get "peer_u9_0" =
        some ({ pC4 with socketId := "s2", isConnected := true }) :=
  c4_unique_participant_per_user.2 stC4 "s2" uC2 "R4" none callC4b roomC4
    "peer_u9_0" pC4 (by decide) (by decide) (by decide) (by decide)
    (by decide) (by decide) (by decide)

/-! ## Claim C7: host immutability -/

/-- C7 (amended): in the `RoomService` registry a room's `hostId` is never
changed by any operation (it always equals the `hostId` of the persisted
call record, which no operation rewrites); the working-signaling-server
variant, however, reassigns `hostId` to the first remaining participant
when the host leaves a non-empty room. -/
theorem c7_host_immutable :
    (∀ (db0 : JMap CallRecord) (ops : List Op) (op : Op) (rid : String)
       (room room2 : RoomState),
      (runFrom db0 ops).rooms.get rid = some room →
      (step (runFrom db0 ops) op).1.rooms.get rid = some room2 →
      room2.hostId = room.hostId) ∧
    (∀ (wst : WsState) (sid rid : String) (room : WsRoom)
       (participant newHost : WsParticipant),
      wst.socketToRoom.get sid = some rid →
      wst.rooms.get rid = some room →
      room.participants.get sid = some participant →
      participant.role = .host →
      (room.participants.del sid).size ≠ 0 →
      (room.participants.del sid).values.head? = some newHost →
      ∃ room2, (wsLeaveRoom wst sid).1.rooms.get rid = some room2 ∧
        room2.hostId = newHost.id) := by
  constructor
  · intro db0 ops op rid room room2 hroom hroom2
    have hInv := inv_runFrom db0 ops
    have hInv2 := inv_step hInv op
    rcases hInv.host (rid, room) (JMap.get_mem hroom) with ⟨c, hg, hh⟩
    rcases hInv2.host (rid, room2) (JMap.get_mem hroom2) with ⟨c2, hg2, hh2⟩
    rcases step_dbHostCongr (runFrom db0 ops) op rid c hg with ⟨c3, hg3, hh3⟩
    rw [hg2] at hg3
    injection hg3 with hg3
    rw [hh2, hg3, hh3, ← hh]
  · intro wst sid rid room participant newHost hs2r hroom hpart hrole hsz hhead
    simp only [wsLeaveRoom, hs2r, hroom, hpart]
    rw [if_neg hsz, if_pos hrole]
    simp only [hhead]
    exact ⟨_, JMap.get_set_self _ _ _, rfl⟩

def wsOpsC7 : List WsOp :=
  [.wjoin "s1" (some "u1") "A" true "RA", .wjoin "s2" (some "u2") "B" false "RA"]

theorem c7_witness :
    ∃ room2, (wsLeaveRoom (wsRun wsOpsC7) "s1").1.rooms.get "RA" = some room2 ∧
      room2.hostId = "u2" := by
  have h := c7_host_immutable.2 (wsRun wsOpsC7) "s1" "RA"
    { roomId := "RA", hostId := "u1",
      participants :=
        [("s1", { id := "u1", socketId := "s1", userId := some "u1", name := "A",
                  isConnected := true, joinedAt := 0, role := .host,
                  audioEnabled := true, videoEnabled := true }),
         ("s2", { id := "u2", socketId := "s2", userId := some "u2", name := "B",
                  isConnected := true, joinedAt := 0, role := .participant,
                  audioEnabled := true, videoEnabled := true })],
      createdAt := 0, isActive := true, maxParticipants := 10 }
    { id := "u1", socketId := "s1", userId := some "u1", name := "A",
      isConnected := true, joinedAt := 0, role := .host,
      audioEnabled := true, videoEnabled := true }
    { id := "u2", socketId := "s2", userId := some "u2", name := "B",
      isConnected := true, joinedAt := 0, role := .participant,
      audioEnabled := true, videoEnabled := true }
    (by decide) (by decide) (by decide) (by decide) (by decide) (by decide)
  exact h

/-- C7 (counterexample): in the working-signaling-server variant, after
host `u1` and participant `u2` join room `RA` and the host leaves, the
room's `hostId` is `u2`, not the creation-time host `u1`; so the claim
that a leave never reassigns the host role is false for this variant. -/
theorem c7_counterexample_ws_host_reassigned :
    ((wsRun wsOpsC7).rooms.get "RA").map (fun r => r.hostId) = some "u1" ∧
    ((wsRun (wsOpsC7 ++ [.wleave "s1"])).rooms.get "RA").map (fun r => r.hostId) =
      some "u2" ∧
    "u2" ≠ "u1" := by
  refine ⟨by decide, by decide, by decide⟩

/-! ## Claim C10: one room per socket; leave before join -/

/-- C10: `socketToRoom` is single-valued (its keys stay pairwise distinct
in every reachable state), and a successful join by a socket that is
already mapped to a room first runs the complete `leaveRoom` on that room
and only then performs the add phase; afterwards the socket is mapped to
the new room only. -/
theorem c10_socket_single_room :
    (∀ (db0 : JMap CallRecord) (ops : List Op),
      ((runFrom db0 ops).socketToRoom.map Prod.fst).Nodup) ∧
    (∀ (st : ServerState) (sid : String) (u : User) (roomId : String)
       (passcode : Option String) (call : CallRecord) (r0 : String),
      st.db.get roomId = some call →
      passcodeRejected call.passcode passcode = false →
      (canUserJoin call (some u.id)).canJoin = true →
      st.socketToRoom.get sid = some r0 →
      (joinRoom st sid u roomId passcode =
        ((joinAdd (leaveRoom st sid (some r0)).1 sid u roomId call).1,
         (leaveRoom st sid (some r0)).2 ++
           (joinAdd (leaveRoom st sid (some r0)).1 sid u roomId call).2) ∧
       (joinRoom st sid u roomId passcode).1.socketToRoom.get sid = some roomId)) := by
  constructor
  · intro db0 ops
    exact (inv_runFrom db0 ops).sKeys
  · intro st sid u roomId passcode call r0 hcall hpc hcj hs2r
    constructor
    · simp only [joinRoom, hcall]
      rw [if_neg (fun hc => Bool.false_ne_true (hpc.symm.trans hc))]
      rw [if_neg (fun hc => Bool.noConfusion (hcj.symm.trans hc))]
      simp only [hs2r]
    · simp only [joinRoom, hcall]
      rw [if_neg (fun hc => Bool.false_ne_true (hpc.symm.trans hc))]
      rw [if_neg (fun hc => Bool.noConfusion (hcj.symm.trans hc))]
      simp only [hs2r]
      exact JMap.get_set_self _ _ _

def callC10 : CallRecord := { callC4 with id := "c5", roomId := "R5" }

def dbC10 : JMap CallRecord := [("R4", callC4), ("R5", callC10)]

def stC10 : ServerState := runFrom dbC10 [.opJoin "s1" uC2 "R4" none]

theorem c10_witness :
    joinRoom stC10 "s1" uC2 "R5" none =
      ((joinAdd (leaveRoom stC10 "s1" (some "R4")).1 "s1" uC2 "R5" callC10).1,
       (leaveRoom stC10 "s1" (some "R4")).2 ++
         (joinAdd (leaveRoom stC10 "s1" (some "R4")).1 "s1" uC2 "R5" callC10).2) ∧
    (joinRoom stC10 "s1" uC2 "R5" none).1.socketToRoom.get "s1" = some "R5" :=
  c10_socket_single_room.2 stC10 "s1" uC2 "R5" none callC10 "R4"
    (by decide) (by decide) (by decide) (by decide)

/-! ## Claim C5: disconnect grace timer -/

/-- C5: `leaveRoom` marks the participant disconnected and schedules a
reap 30000 ms after the current time, capturing the participant's
`peerId`; when the timer body runs and the participant is still
disconnected it is removed from the room's map (and the room is removed
when the map becomes empty); when the participant has reconnected
(`isConnected` at fire time) the state is unchanged, preserving the
participant with the same `peerId`; `step` runs a pending timer only once
its scheduled time has been reached. -/
theorem c5_reap_grace :
    (∀ (st : ServerState) (sid tgt : String) (room : RoomState)
       (prid k : String) (participant : Participant),
      st.rooms.get tgt = some room →
      getParticipantEntryBySocket st sid = some (prid, k, participant) →
      (leaveRoom st sid (some tgt)).1.pendingReaps =
        st.pendingReaps ++ [(st.now + 30000, tgt, participant.peerId)]) ∧
    (∀ (st : ServerState) (rid pid : String) (room : RoomState) (q : Participant),
      st.rooms.get rid = some room →
      room.participants.get pid = some q →
      q.isConnected = false →
      (((room.participants.del pid).length = 0 →
        (reapFire st rid pid).rooms.get rid = none) ∧
       ((room.participants.del pid).length ≠ 0 →
        (reapFire st rid pid).rooms.get rid =
          some ({ room with participants := room.participants.del pid })) ∧
       (room.participants.del pid).get pid = none)) ∧
    (∀ (st : ServerState) (rid pid : String) (room : RoomState) (q : Participant),
      st.rooms.get rid = some room →
      room.participants.get pid = some q →
      q.isConnected = true →
      reapFire st rid pid = st) ∧
    (∀ (st : ServerState) (i : Nat) (r : Nat × String × String),
      st.pendingReaps.get? i = some r →
      r.1 ≤ st.now →
      step st (.opReap i) =
        (reapFire ({ st with pendingReaps := st.pendingReaps.eraseIdx i })
          r.2.1 r.2.2, [])) := by
  refine ⟨?_, ?_, ?_, ?_⟩
  · intro st sid tgt room prid k participant hroom hpart
    simp only [leaveRoom, leaveRoomCore, hroom, hpart]
  · intro st rid pid room q hroom hq hconn
    simp only [reapFire, hroom, hq]
    rw [if_neg (fun hc => Bool.false_ne_true (hconn.symm.trans hc))]
    refine ⟨?_, ?_, JMap.get_del_self _ _⟩
    · intro hlen
      rw [if_pos hlen]
      exact JMap.get_del_self _ _
    · intro hlen
      rw [if_neg hlen]
      exact JMap.get_set_self _ _ _
  · intro st rid pid room q hroom hq hconn
    simp only [reapFire, hroom, hq]
    rw [if_pos hconn]
  · intro st i r hr hle
    simp only [step, fireReapAt, hr]
    rw [if_pos hle]

def stC5 : ServerState :=
  runFrom dbC4 [.opJoin "s1" uC2 "R4" none, .opLeave "s1" none]

def stC5t : ServerState :=
  runFrom dbC4 [.opJoin "s1" uC2 "R4" none, .opLeave "s1" none, .opTick 30000]

def pC4dis : Participant := { pC4 with isConnected := false }

def roomC5 : RoomState := { roomC4 with participants := [("peer_u9_0", pC4dis)] }

theorem c5_witness :
    ((leaveRoom stC4 "s1" (some "R4")).1.pendingReaps =
      stC4.pendingReaps ++ [(stC4.now + 30000, "R4", pC4.peerId)]) ∧
    ((reapFire stC5t "R4" "peer_u9_0").rooms.get "R4" = none) ∧
    (reapFire stC4 "R4" "peer_u9_0" = stC4) ∧
    (step stC5t (.opReap 0) =
      (reapFire ({ stC5t with pendingReaps := stC5t.pendingReaps.eraseIdx 0 })
        "R4" "peer_u9_0", [])) := by
  refine ⟨?_, ?_, ?_, ?_⟩
  · exact c5_reap_grace.1 stC4 "s1" "R4" roomC4 "R4" "peer_u9_0" pC4
      (by decide) (by decide)
  · exact (c5_reap_grace.2.1 stC5t "R4" "peer_u9_0" roomC5 pC4dis
      (by decide) (by decide) (by decide)).1 (by decide)
  · exact c5_reap_grace.2.2.1 stC4 "R4" "peer_u9_0" roomC4 pC4
      (by decide) (by decide) (by decide)
  · exact c5_reap_grace.2.2.2 stC5t 0 (30000, "R4", "peer_u9_0")
      (by decide) (by decide)

/-! ## Claim C6: endCall authorization and cleanup -/

theorem get_del_none {α : Type} {m : JMap α} {x k : String}
    (h : JMap.get m x = none) : JMap.get (JMap.del m k) x = none := by
  by_cases hx : x = k
  · subst hx
    exact JMap.get_del_self m x
  · rw [JMap.get_del_ne m k x hx]
    exact h

theorem clearFold_none (l : List Participant) (maps : JMap String × JMap String)
    (x : String) (h1 : maps.1.get x = none) (h2 : maps.2.get x = none) :
    ((l.foldl (fun (maps : JMap String × JMap String) p =>
        if p.socketId ≠ "" then (maps.1.del p.socketId, maps.2.del p.socketId)
        else maps) maps)).1.get x = none ∧
    ((l.foldl (fun (maps : JMap String × JMap String) p =>
        if p.socketId ≠ "" then (maps.1.del p.socketId, maps.2.del p.socketId)
        else maps) maps)).2.get x = none := by
  induction l generalizing maps with
  | nil => exact ⟨h1, h2⟩
  | cons p ps ih =>
    simp only [List.foldl_cons]
    by_cases hp : p.socketId ≠ ""
    · rw [if_pos hp]
      exact ih _ (get_del_none h1) (get_del_none h2)
    · rw [if_neg hp]
      exact ih _ h1 h2

theorem clearFold_mem (l : List Participant) (maps : JMap String × JMap String)
    (q : Participant) (hq : q ∈ l) (hne : q.socketId ≠ "") :
    ((l.foldl (fun (maps : JMap String × JMap String) p =>
        if p.socketId ≠ "" then (maps.1.del p.socketId, maps.2.del p.socketId)
        else maps) maps)).1.get q.socketId = none ∧
    ((l.foldl (fun (maps : JMap String × JMap String) p =>
        if p.socketId ≠ "" then (maps.1.del p.socketId, maps.2.del p.socketId)
        else maps) maps)).2.get q.socketId = none := by
  induction l generalizing maps with
  | nil => cases hq
  | cons p ps ih =>
    simp only [List.foldl_cons]
    rcases List.mem_cons.mp hq with hq2 | hq2
    · subst hq2
      rw [if_pos hne]
      exact clearFold_none ps _ q.socketId
        (JMap.get_del_self _ _) (JMap.get_del_self _ _)
    · by_cases hp : p.socketId ≠ ""
      · rw [if_pos hp]
        exact ih _ hq2
      · rw [if_neg hp]
        exact ih _ hq2

/-- C6 (amended): `endCall` by a non-host emits an error whose message is
`Only host can end the call` and whose `code` field is absent (not a
`HostRequired` code), leaving the state unchanged; `endCall` by the host
broadcasts `room:call-ended` to the whole socket.io room (so every
connected participant, the host included, is in the delivery set), removes
the room from the registry, and deletes the socket mappings of every
participant of the room. -/
theorem c6_endcall_host_only :
    (∀ (st : ServerState) (sid : String) (room : RoomState)
       (prid k : String) (participant : Participant),
      getRoomBySocket st sid = some room →
      getParticipantEntryBySocket st sid = some (prid, k, participant) →
      participant.userId ≠ room.hostId →
      endCall st sid =
        (st, [(.toSocket sid, .errorEv "Only host can end the call" none)])) ∧
    (∀ (st : ServerState) (sid : String) (room : RoomState)
       (prid k : String) (participant : Participant),
      getRoomBySocket st sid = some room →
      getParticipantEntryBySocket st sid = some (prid, k, participant) →
      participant.userId = room.hostId →
      ((endCall st sid).2 =
        [(.toRoom room.roomId, .callEnded room.roomId "Host ended the call")] ∧
       (endCall st sid).1.rooms = st.rooms.del room.roomId ∧
       (∀ q ∈ room.participants.values, q.socketId ≠ "" →
         ((endCall st sid).1.socketToRoom.get q.socketId = none ∧
          (endCall st sid).1.socketToUser.get q.socketId = none)) ∧
       (∀ q ∈ room.participants.values, q.isConnected = true →
         q.socketId ∈ (st.sioRooms.get room.roomId).getD [] →
         q.socketId ∈ deliveredSockets st.sioRooms (.toRoom room.roomId)))) := by
  constructor
  · intro st sid room prid k participant hroom hpart hne
    simp only [endCall, hroom, hpart]
    rw [if_pos hne]
  · intro st sid room prid k participant hroom hpart hhost
    have hred : endCall st sid = ({ st with
        db := (match st.db.get room.roomId with
          | some c => st.db.set room.roomId (endCallDb c st.now)
          | none => st.db),
        rooms := st.rooms.del room.roomId,
        socketToRoom := (room.participants.values.foldl
          (fun (maps : JMap String × JMap String) p =>
            if p.socketId ≠ "" then (maps.1.del p.socketId, maps.2.del p.socketId)
            else maps) (st.socketToRoom, st.socketToUser)).1,
        socketToUser := (room.participants.values.foldl
          (fun (maps : JMap String × JMap String) p =>
            if p.socketId ≠ "" then (maps.1.del p.socketId, maps.2.del p.socketId)
            else maps) (st.socketToRoom, st.socketToUser)).2 },
      [(.toRoom room.roomId, .callEnded room.roomId "Host ended the call")]) := by
      simp only [endCall, hroom, hpart]
      rw [if_neg (fun hc => hc hhost)]
    refine ⟨?_, ?_, ?_, ?_⟩
    · rw [hred]
    · rw [hred]
    · intro q hq hqne
      rw [hred]
      exact clearFold_mem room.participants.values
        (st.socketToRoom, st.socketToUser) q hq hqne
    · intro q _hq _hconn hmem
      exact hmem

def uC6 : User := { id := "u1", name := "H", email := "h@x" }

def stC6 : ServerState :=
  runFrom dbC4 [.opJoin "s1" uC6 "R4" none, .opJoin "s2" uC2 "R4" none]

/-- C6 (counterexample): a non-host `endCall` emits an error event whose
`code` field is `none`; the claim expects a `HostRequired` error code. -/
theorem c6_counterexample_no_host_required_code :
    (step stC6 (.opEndCall "s2")).2 =
      [(.toSocket "s2", .errorEv "Only host can end the call" none)] ∧
    (none : Option String) ≠ some "HOST_REQUIRED" := by
  refine ⟨by decide, by decide⟩

def pC6h : Participant :=
  { userId := "u1", socketId := "s1", peerId := "peer_u1_0", user := uC6,
    joinedAt := 0, isConnected := true,
    mediaState := { videoEnabled := true, audioEnabled := true, screenShareEnabled := false } }

def pC6b : Participant :=
  { userId := "u9", socketId := "s2", peerId := "peer_u9_0", user := uC2,
    joinedAt := 0, isConnected := true,
    mediaState := { videoEnabled := true, audioEnabled := true, screenShareEnabled := false } }

def roomC6 : RoomState :=
  { roomId := "R4", callId := "c4", hostId := "u1",
    participants := [("peer_u1_0", pC6h), ("peer_u9_0", pC6b)], createdAt := 0,
    settings := defaultCallSettings }

theorem c6_witness :
    (endCall stC6 "s1").2 =
      [(.toRoom "R4", .callEnded "R4" "Host ended the call")] ∧
    (endCall stC6 "s1").1.rooms = stC6.rooms.del "R4" ∧
    ((endCall stC6 "s1").1.socketToRoom.get "s2" = none ∧
     (endCall stC6 "s1").1.socketToUser.get "s2" = none) ∧
    "s1" ∈ deliveredSockets stC6.sioRooms (.toRoom "R4") := by
  have h := c6_endcall_host_only.2 stC6 "s1" roomC6 "R4" "peer_u1_0" pC6h
    (by decide) (by decide) (by decide)
  refine ⟨h.1, h.2.1, ?_, ?_⟩
  · exact h.2.2.1 pC6b (by decide) (by decide)
  · exact h.2.2.2 pC6h (by decide) (by decide) (by decide)

/-! ## Claim C8: no broadcast to self -/

/-- The event kinds whose broadcasts the claim covers besides chat. -/
def selfKind : Event → Bool
  | .userJoined _ _ => true
  | .userLeft _ _ => true
  | .mediaChanged _ _ _ => true
  | _ => false

theorem leaveCore_out (st : ServerState) (sid : String) (tgt? : Option String) :
    ∀ e ∈ (leaveRoomCore st sid tgt?).2, ∃ rid p u2,
      e = ((.toRoomExcept rid sid : Target), (.userLeft p u2 : Event)) := by
  cases tgt? with
  | none =>
    intro e he
    cases he
  | some tgt =>
    cases hroom : st.rooms.get tgt with
    | none =>
      simp only [leaveRoomCore, hroom]
      intro e he
      cases he
    | some room =>
      cases hpart : getParticipantEntryBySocket st sid with
      | none =>
        simp only [leaveRoomCore, hroom, hpart]
        intro e he
        cases he
      | some trip =>
        obtain ⟨prid, k, participant⟩ := trip
        simp only [leaveRoomCore, hroom, hpart]
        intro e he
        rcases List.mem_singleton.mp he with rfl
        exact ⟨tgt, participant.peerId, participant.userId, rfl⟩

theorem leave_out (st : ServerState) (sid : String) (rarg : Option String) :
    ∀ e ∈ (leaveRoom st sid rarg).2, ∃ rid p u2,
      e = ((.toRoomExcept rid sid : Target), (.userLeft p u2 : Event)) :=
  leaveCore_out st sid _

/-- The two emissions of the commit phase of a join: `room:joined` to the
caller and `room:user-joined` to the room minus the caller. -/
theorem joinAdd_out (st1 : ServerState) (sid : String) (u : User)
    (roomId : String) (call : CallRecord) :
    ∀ e ∈ (joinAdd st1 sid u roomId call).2, selfKind e.2 = true →
      ∃ rid, e.1 = (.toRoomExcept rid sid : Target) := by
  intro e he hk
  unfold joinAdd at he
  rcases List.mem_cons.mp he with rfl | he2
  · simp [selfKind] at hk
  · rcases List.mem_singleton.mp he2 with rfl
    exact ⟨roomId, rfl⟩

theorem joinRoom_out (st : ServerState) (sid : String) (u : User)
    (roomId : String) (passcode : Option String) :
    ∀ e ∈ (joinRoom st sid u roomId passcode).2, selfKind e.2 = true →
      ∃ rid, e.1 = (.toRoomExcept rid sid : Target) := by
  intro e he hk
  rcases hcall : st.db.get roomId with _ | call
  · simp only [joinRoom, hcall] at he
    rcases List.mem_singleton.mp he with rfl
    simp [selfKind] at hk
  · simp only [joinRoom, hcall] at he
    by_cases hpc : passcodeRejected call.passcode passcode = true
    · rw [if_pos hpc] at he
      rcases List.mem_singleton.mp he with rfl
      simp [selfKind] at hk
    · rw [if_neg hpc] at he
      by_cases hcj : (canUserJoin call (some u.id)).canJoin = false
      · rw [if_pos hcj] at he
        rcases List.mem_singleton.mp he with rfl
        simp [selfKind] at hk
      · rw [if_neg hcj] at he
        rcases hs2r : st.socketToRoom.get sid with _ | r0
        · simp only [hs2r] at he
          rcases List.mem_append.mp he with he2 | he2
          · cases he2
          · exact joinAdd_out st sid u roomId call e he2 hk
        · simp only [hs2r] at he
          rcases List.mem_append.mp he with he2 | he2
          · rcases leave_out st sid (some r0) e he2 with ⟨rid, p, u2, rfl⟩
            exact ⟨rid, rfl⟩
          · exact joinAdd_out _ sid u roomId call e he2 hk

theorem createRoom_out (st : ServerState) (sid : String) (u : User)
    (frontendRoomId : Option String) (status : CallStatus) :
    ∀ e ∈ (createRoom st sid u frontendRoomId status).2, selfKind e.2 = false := by
  intro e he
  simp only [createRoom] at he
  split at he
  · rcases List.mem_singleton.mp he with rfl
    rfl
  · rcases List.mem_singleton.mp he with rfl
    rfl

theorem endCall_out (st : ServerState) (sid : String) :
    ∀ e ∈ (endCall st sid).2, selfKind e.2 = false := by
  intro e he
  rcases hroom : getRoomBySocket st sid with _ | room
  · simp only [endCall, hroom] at he
    rcases List.mem_singleton.mp he with rfl
    rfl
  · rcases hpart : getParticipantEntryBySocket st sid with _ | trip
    · simp only [endCall, hroom, hpart] at he
      rcases List.mem_singleton.mp he with rfl
      rfl
    · obtain ⟨prid, k, participant⟩ := trip
      simp only [endCall, hroom, hpart] at he
      by_cases hne : participant.userId ≠ room.hostId
      · rw [if_pos hne] at he
        rcases List.mem_singleton.mp he with rfl
        rfl
      · rw [if_neg hne] at he
        rcases List.mem_singleton.mp he with rfl
        rfl

theorem updateMediaState_out (st : ServerState) (sid : String) (m : MediaState) :
    ∀ e ∈ (updateMediaState st sid m).2, ∃ rid u2 p2,
      e = ((.toRoomExcept rid sid : Target), (.mediaChanged u2 p2 m : Event)) := by
  intro e he
  rcases hpart : getParticipantEntryBySocket st sid with _ | trip
  · simp only [updateMediaState, hpart] at he
    cases he
  · obtain ⟨prid, k, participant⟩ := trip
    rcases hroom : getRoomBySocket st sid with _ | room
    · simp only [updateMediaState, hpart, hroom] at he
      cases he
    · simp only [updateMediaState, hpart, hroom] at he
      rcases List.mem_singleton.mp he with rfl
      exact ⟨room.roomId, participant.userId, participant.peerId, rfl⟩

theorem chatHandler_out (st : ServerState) (sid text : String) :
    ∀ e ∈ (chatHandler st sid text).2, selfKind e.2 = false := by
  intro e he
  rcases h1 : st.socketToRoom.get sid with _ | rid
  · simp only [chatHandler, h1] at he
    cases he
  · rcases h2 : st.rooms.get rid with _ | room
    · simp only [chatHandler, h1, h2] at he
      cases he
    · rcases h3 : room.participants.get sid with _ | p
      · simp only [chatHandler, h1, h2, h3] at he
        cases he
      · simp only [chatHandler, h1, h2, h3] at he
        rcases List.mem_singleton.mp he with rfl
        rfl

/-- C8 (amended): the `room:user-joined`, `room:user-left` and
`participant:media-state-changed` broadcasts always target the socket.io
room minus the acting socket (`socket.to`), so the actor is never in their
delivery set; the chat broadcast, however, uses `io.to`: in the
working-signaling-server variant a chat message from a joined participant
is emitted to the whole room and the sender is in the delivery set (in the
`index.ts` + `RoomService` pairing the chat handler looks the participant
up by socket id in a peerId-keyed map, so the chat broadcast never fires
at all). -/
theorem c8_no_self_broadcast :
    (∀ (st : ServerState) (op : Op), ∀ e ∈ (step st op).2, selfKind e.2 = true →
      ∃ rid a, e.1 = (.toRoomExcept rid a : Target) ∧ opActor op = some a) ∧
    (∀ (r : SioRooms) (rid a : String),
      a ∉ deliveredSockets r (.toRoomExcept rid a)) ∧
    (∀ (wst : WsState) (sid text rid : String) (room : WsRoom) (p : WsParticipant),
      wst.socketToRoom.get sid = some rid →
      wst.rooms.get rid = some room →
      room.participants.get sid = some p →
      (wsChat wst sid text = (wst, [(.toRoom rid, .chatMsg p.id text)]) ∧
       (sid ∈ (wst.sioRooms.get rid).getD [] →
        sid ∈ deliveredSockets wst.sioRooms (.toRoom rid)))) := by
  refine ⟨?_, ?_, ?_⟩
  · intro st op e he hk
    cases op with
    | opCreate sid u frontendRoomId status =>
      rw [createRoom_out st sid u frontendRoomId status e he] at hk
      cases hk
    | opJoin sid u roomId passcode =>
      rcases joinRoom_out st sid u roomId passcode e he hk with ⟨rid, h1⟩
      exact ⟨rid, sid, h1, rfl⟩
    | opLeave sid rarg =>
      rcases leave_out st sid rarg e he with ⟨rid, p, u2, rfl⟩
      exact ⟨rid, sid, rfl, rfl⟩
    | opDisconnect sid =>
      rcases hs2r : st.socketToRoom.get sid with _ | rid0
      · simp only [step, hs2r] at he
        cases he
      · simp only [step, hs2r] at he
        rcases leave_out st sid (some rid0) e he with ⟨rid, p, u2, rfl⟩
        exact ⟨rid, sid, rfl, rfl⟩
    | opEndCall sid =>
      rw [endCall_out st sid e he] at hk
      cases hk
    | opMedia sid m =>
      rcases updateMediaState_out st sid m e he with ⟨rid, u2, p2, rfl⟩
      exact ⟨rid, sid, rfl, rfl⟩
    | opChat sid text =>
      rw [chatHandler_out st sid text e he] at hk
      cases hk
    | opReap i => cases he
    | opTick dt => cases he
  · intro r rid a
    simp [deliveredSockets, List.mem_filter]
  · intro wst sid text rid room p hs2r hroom hp
    refine ⟨?_, fun hm => hm⟩
    simp only [wsChat, hs2r, hroom, hp]

def wsStC8 : WsState := wsRun wsOpsC7

/-- C8 (counterexample): in the working-signaling-server variant a chat
message from socket `s1` is broadcast with `io.to` to room `RA` and `s1`
itself is in the delivery set, contradicting the claim that chat
broadcasts are never delivered to the actor. -/
theorem c8_counterexample_chat_delivered_to_sender :
    (wsChat wsStC8 "s1" "hi").2 = [(.toRoom "RA", .chatMsg "u1" "hi")] ∧
    "s1" ∈ deliveredSockets wsStC8.sioRooms (.toRoom "RA") := by
  refine ⟨by decide, by decide⟩

def msC8 : MediaState :=
  { videoEnabled := false, audioEnabled := true, screenShareEnabled := false }

def pC8h : WsParticipant :=
  { id := "u1", socketId := "s1", userId := some "u1", name := "A",
    isConnected := true, joinedAt := 0, role := .host,
    audioEnabled := true, videoEnabled := true }

def pC8b : WsParticipant :=
  { id := "u2", socketId := "s2", userId := some "u2", name := "B",
    isConnected := true, joinedAt := 0, role := .participant,
    audioEnabled := true, videoEnabled := true }

def roomC8 : WsRoom :=
  { roomId := "RA", hostId := "u1",
    participants := [("s1", pC8h), ("s2", pC8b)],
    createdAt := 0, isActive := true, maxParticipants := 10 }

theorem c8_witness :
    (∃ rid a, ((.toRoomExcept "R4" "s1" : Target),
        (.mediaChanged "u9" "peer_u9_0" msC8 : Event)).1 =
      (.toRoomExcept rid a : Target) ∧ opActor (.opMedia "s1" msC8) = some a) ∧
    (wsChat wsStC8 "s1" "hi" = (wsStC8, [(.toRoom "RA", .chatMsg pC8h.id "hi")]) ∧
     ("s1" ∈ (wsStC8.sioRooms.get "RA").getD [] →
      "s1" ∈ deliveredSockets wsStC8.sioRooms (.toRoom "RA"))) := by
  constructor
  · exact c8_no_self_broadcast.1 stC4 (.opMedia "s1" msC8)
      ((.toRoomExcept "R4" "s1" : Target), (.mediaChanged "u9" "peer_u9_0" msC8 : Event))
      (by decide) (by decide)
  · exact c8_no_self_broadcast.2.2 wsStC8 "s1" "hi" "RA" roomC8 pC8h
      (by decide) (by decide) (by decide)

end VdoV2
